import Mathlib

/-!
Verification of the api-data-ops transformation pipeline.

The Python source (polars/pydantic) is shallowly embedded: frames become
lists of records, polars expressions become Lean functions on those lists,
nullable columns become `Option`, and uncaught Python exceptions become
`Except.error` values.  `rank("dense")` is embedded as `denseRank` below:
polars numbers the distinct keys in ascending value order, this development
numbers them in list order; the two numberings agree on every equality,
distinctness and 1..k-range property proved here, and concrete inputs in the
examples are arranged in ascending order so the numeric keys agree as well.
-/

deriving instance DecidableEq for Except

namespace Acs

/-- Python `str.startswith` (also the byte-level check inside removeprefix and
removesuffix), computed on the character lists so that concrete instances
reduce inside the kernel. -/
def startsWithPy (s p : String) : Bool :=
  p.data.isPrefixOf s.data

/-- Python `str.endswith`, computed on the character lists. -/
def endsWithPy (s p : String) : Bool :=
  p.data.reverse.isPrefixOf s.data.reverse

/-- Lexicographic comparison of character lists by code point (the ordering
polars and Python use when sorting the plain-ASCII strings of this pipeline),
written as a plain Bool function so concrete instances reduce inside the
kernel. -/
def charListLe : List Char → List Char → Bool
  | [], _ => true
  | _ :: _, [] => false
  | a :: as, b :: bs =>
    if a.toNat = b.toNat then charListLe as bs else decide (a.toNat < b.toNat)

/-- String comparison used for the embedded `sort` operations. -/
def strLe (a b : String) : Bool :=
  charListLe a.data b.data

/-- Python `str.strip(ch)` on character lists: remove all leading and trailing
copies of `c` (models `dataset.strip("/")` and `path.strip("/")`). -/
def pyStripL (c : Char) (l : List Char) : List Char :=
  ((l.dropWhile (· = c)).reverse.dropWhile (· = c)).reverse

/-- Python `str.strip(ch)` for a one-character strip set. -/
def pyStrip (c : Char) (s : String) : String :=
  String.mk (pyStripL c s.data)

/-- Python `str.split(sep)` for a one-character separator, on character lists.
Always returns at least one (possibly empty) piece. -/
def splitcL (c : Char) : List Char → List (List Char)
  | [] => [[]]
  | a :: as =>
    match splitcL c as with
    | [] => [[]]
    | g :: gs => if a = c then [] :: g :: gs else (a :: g) :: gs

/-- Python `str.split(sep)` for a one-character separator. -/
def splitc (c : Char) (s : String) : List String :=
  (splitcL c s.data).map String.mk

/-- Joining pieces with a one-character separator (Python `sep.join(...)`,
`",".join(self.vars)` and `"/".join(path_parts[2:])`). -/
def joinSep (c : Char) : List (List Char) → List Char
  | [] => []
  | [p] => p
  | p :: ps => p ++ c :: joinSep c ps

/-- String-level wrapper of `joinSep`. -/
def joinc (c : Char) (l : List String) : String :=
  String.mk (joinSep c (l.map String.data))

/-- Python `str.removeprefix`: drop `p` from the front when present. -/
def removePrefixPy (s p : String) : String :=
  if startsWithPy s p then String.mk (s.data.drop p.data.length) else s

/-- Python `str.removesuffix`: drop `p` from the back when present. -/
def removeSuffixPy (s p : String) : String :=
  if endsWithPy s p then String.mk (s.data.take (s.data.length - p.data.length)) else s

/-- polars `rank("dense")`: every distinct key receives the smallest unused
positive integer; equal keys receive equal ranks.  polars numbers distinct
keys by ascending value, this embedding by position of the key in the
deduplicated key list (see the header note). -/
def denseRank {α : Type} [DecidableEq α] (keys : List α) (k : α) : Nat :=
  keys.dedup.indexOf k + 1

/-- `TableType` enum from `dataops.mixins.acs`. -/
inductive TableType
  | subject
  | detailed
  | cprofile
  | dataprofile
  | unknown
deriving DecidableEq

/-- Python `TableType[name]` lookup used in the fallback branch of
`table_type` (a `KeyError` is caught and mapped to `unknown` by the caller). -/
def tableTypeOfName (s : String) : Option TableType :=
  if s = "subject" then some .subject
  else if s = "detailed" then some .detailed
  else if s = "cprofile" then some .cprofile
  else if s = "dataprofile" then some .dataprofile
  else if s = "unknown" then some .unknown
  else none

/-- `APIEndpointMixin.group`: when `vars` is a single entry starting with
`group`, strip the `group(`/`)` wrapper; otherwise `None`. -/
def group (vars : List String) : Option String :=
  let vs := String.join vars
  if vars.length < 2 ∧ startsWithPy vs "group" = true then
    some (removeSuffixPy (removePrefixPy vs "group(") ")")
  else
    none

/-- `dataset_parts = self.dataset.strip("/").split("/")`. -/
def datasetParts (dataset : String) : List String :=
  splitc '/' (pyStrip '/' dataset)

/-- `APIEndpointMixin.table_type`.  The error cases model the uncaught Python
exceptions: `dataset_parts[1]` raises `IndexError` on a single-segment
dataset, and `self.group[0]` raises `TypeError` when `group` is `None`
(respectively `IndexError` when the group is the empty string). -/
def tableType (dataset : String) (vars : List String) : Except String TableType :=
  let lastSeg := (datasetParts dataset).getLastD ""
  match (datasetParts dataset).get? 1 with
  | none => .error "IndexError: list index out of range"
  | some middle =>
    if vars.length < 2 ∧ startsWithPy (String.join vars) "group" = true ∧ lastSeg = middle then
      .ok .detailed
    else if lastSeg = "profile" then
      match group vars with
      | none => .error "TypeError: NoneType is not subscriptable"
      | some g =>
        match g.data with
        | [] => .error "IndexError: string index out of range"
        | ch :: _ =>
          if ch = 'D' then .ok .dataprofile
          else if ch = 'C' then .ok .cprofile
          else .ok .unknown
    else
      .ok ((tableTypeOfName lastSeg).getD .unknown)

/-! ### Endpoint descriptor and `from_url` (`dataops.apis.acs.APIEndpoint`)

A request URL is modeled structurally as the pair that `urlparse`/`parse_qs`
produce from it: the raw path string and the ordered list of query key/value
pairs.  `requests` percent-encodes parameters on the way out and `parse_qs`
decodes them on the way in; the two cancel, so values are carried verbatim.
The descriptor keeps the default `base_url` (`https://api.census.gov/data`),
which is the only one `from_url` ever produces. -/

/-- The validated `APIEndpoint` pydantic model (fields relevant to parsing;
`api_key` resolution from the environment is external and left as the raw
optional value). -/
structure APIEndpoint where
  year : Nat
  dataset : String
  vars : List String
  geography : String
  api_key : Option String
deriving DecidableEq

/-- `parse_qs(query)[k]`: the values listed under key `k`, in order; pairs with
an empty value are dropped, as with the default `keep_blank_values=False`. -/
def qsGet (query : List (String × String)) (k : String) : List String :=
  ((query.filter (fun p => p.2 ≠ "")).filter (fun p => p.1 = k)).map (fun p => p.2)

/-- `k in query_params` for the geography-priority scan. -/
def qsHas (query : List (String × String)) (k : String) : Bool :=
  !(qsGet query k).isEmpty

/-- Python `int(s)` restricted to canonical decimal strings (the form
`f"{year}"` produces; Python additionally tolerates sign, surrounding
whitespace and underscores, which only widens the set of accepted URLs and is
not modeled). -/
def parseIntPy (s : String) : Option Nat :=
  if s.data ≠ [] ∧ s.data.all Char.isDigit then
    some (s.data.foldl (fun a c => 10 * a + (c.toNat - 48)) 0)
  else
    none

/-- Decimal digit characters for `natRepr`. -/
def digitCh (d : Nat) : Char :=
  match d with
  | 0 => '0' | 1 => '1' | 2 => '2' | 3 => '3' | 4 => '4'
  | 5 => '5' | 6 => '6' | 7 => '7' | 8 => '8' | _ => '9'

/-- Least-significant-first decimal digits, with explicit fuel so that
concrete instances reduce inside the kernel (`natDigitsRev n n` agrees with
`Nat.digits 10 n`, see `natDigitsRev_eq_digits`). -/
def natDigitsRev : Nat → Nat → List Nat
  | 0, _ => []
  | _ + 1, 0 => []
  | f + 1, n + 1 => ((n + 1) % 10) :: natDigitsRev f ((n + 1) / 10)

/-- Python `f"{n}"` for a positive integer: its decimal digit string. -/
def natRepr (n : Nat) : String :=
  String.mk (((natDigitsRev n n).map digitCh).reverse)

/-- `path_parts`: the nonempty segments of `urlparse(url).path` after
stripping slashes and splitting. -/
def pathPartsOf (path : String) : List String :=
  (splitc '/' (pyStrip '/' path)).filter (fun p => p ≠ "")

/-- `APIEndpoint.from_url`, given the parsed path string and query pairs.
The pydantic validation performed by the final constructor call (`year >
2004`, dataset stripped of slashes; `variables` is never empty here) is part
of the function, as is the `ValueError` translation of any failure. -/
def fromUrl (path : String) (query : List (String × String)) :
    Except String APIEndpoint :=
  if (pathPartsOf path).headD "" = "data" ∧ 3 ≤ (pathPartsOf path).length then
    match parseIntPy ((pathPartsOf path).getD 1 "") with
    | none => .error "ValueError: invalid literal for int"
    | some year =>
      if splitc ',' ((qsGet query "get").headD "") ≠ [""] then
        match ["for", "in", "ucgid"].find? (fun k => qsHas query k) with
        | some geoKey =>
          if 2004 < year then
            .ok { year := year
                  dataset := pyStrip '/' (joinc '/' ((pathPartsOf path).drop 2))
                  vars := splitc ',' ((qsGet query "get").headD "")
                  geography := geoKey ++ ":" ++ (qsGet query geoKey).headD ""
                  api_key := (qsGet query "key").head? }
          else .error "ValidationError: year must be greater than 2004"
        | none => .error "Could not find a recognized geography parameter"
      else .error "Could not find get parameter for variables in URL query"
  else .error "URL path does not match expected structure"

/-- Python `geography.split(\x22:\x22, 1)`: the parts before and after the first
colon. -/
def splitColon1 (s : String) : String × String :=
  (String.mk (s.data.takeWhile (fun c => c ≠ ':')),
   String.mk ((s.data.dropWhile (fun c => c ≠ ':')).drop 1))

/-- Path of the URL built by `url_no_key` (its `urlparse(...).path`), for the
default base url. -/
def urlNoKeyPath (e : APIEndpoint) : String :=
  "/data/" ++ natRepr e.year ++ "/" ++ e.dataset

/-- Query pairs of the URL built by `url_no_key`: the joined `get` list and
the geography pair recovered by `geography.split(\x22:\x22, 1)`. -/
def urlNoKeyQuery (e : APIEndpoint) : List (String × String) :=
  let kv := splitColon1 e.geography
  [("get", joinc ',' e.vars), (kv.1, kv.2)]

/-! ### Variable decoding and `measure_id` (`APIDataMixin._parse_vars`) -/

/-- polars `str.split_exact(by, n)` body: split on a one-character separator
with at most `n` splits, the remainder staying in the last piece (same
contract as Python `str.split(sep, maxsplit=n)`). -/
def splitMaxL (c : Char) : Nat → List Char → List (List Char)
  | 0, l => [l]
  | _ + 1, [] => [[]]
  | n + 1, a :: as =>
    if a = c then [] :: splitMaxL c n as
    else
      match splitMaxL c (n + 1) as with
      | [] => [[a]]
      | g :: gs => (a :: g) :: gs

/-- The `n + 1` nullable struct fields produced by `str.split_exact(by, n)`:
pieces beyond the ones actually produced are null. -/
def splitExactFields (c : Char) (n : Nat) (s : String) : List (Option String) :=
  let ps := (splitMaxL c n s.data).map String.mk
  ps.map some ++ List.replicate (n + 1 - ps.length) none

/-- `str.extract(r"^(\d+)")`: the leading run of decimal digits, or null. -/
def leadingDigits (s : String) : Option String :=
  match s.data.takeWhile Char.isDigit with
  | [] => none
  | ds => some (String.mk ds)

/-- `str.extract(r"(\D+)$")`: the trailing run of non-digits, or null. -/
def trailingNonDigits (s : String) : Option String :=
  match (s.data.reverse.takeWhile (fun c => !c.isDigit)).reverse with
  | [] => none
  | ds => some (String.mk ds)

/-- `str.to_integer()` on an all-digit string (strict casting of the column
raises on a non-digit value instead of producing a row, so only the digit
case reaches the output). -/
def toIntegerPy (s : Option String) : Option Nat :=
  s.bind parseIntPy

/-- One row of `_no_extra` as consumed by `_parse_vars`: the surviving input
columns that feed the decode. -/
structure TidyVarRow where
  stratifier_id : Nat
  row_id : Nat
  varName : String
deriving DecidableEq

/-- A decoded variable row, before the `measure_id` rank is attached. -/
structure DecodedVarRow where
  stratifier_id : Nat
  row_id : Nat
  varName : String
  table_id : Option String
  column_id : Option String
  line_id : Option String
  column_number : Option Nat
  line_number : Option Nat
deriving DecidableEq

/-- A decoded variable row with its `measure_id`. -/
structure ParsedVarRow where
  stratifier_id : Nat
  row_id : Nat
  varName : String
  table_id : Option String
  column_id : Option String
  line_id : Option String
  column_number : Option Nat
  line_number : Option Nat
  measure_id : Nat
deriving DecidableEq

/-- The `subject` branch of `_parse_vars` for one row:
`split_exact(by="_", n=2)` renamed to (table_id, column_id, line_id),
`column_number` from the last two characters of `column_id`, and the common
line expressions. -/
def subjectDecode (r : TidyVarRow) : DecodedVarRow :=
  let f := splitExactFields '_' 2 r.varName
  let table_id := (f.getD 0 none)
  let column_id := (f.getD 1 none)
  let line_id := (f.getD 2 none)
  { stratifier_id := r.stratifier_id
    row_id := r.row_id
    varName := r.varName
    table_id := table_id
    column_id := column_id
    line_id := line_id
    column_number := toIntegerPy (column_id.map (fun s => String.mk (s.data.drop (s.data.length - 2))))
    line_number := toIntegerPy (line_id.bind leadingDigits) }

/-- The composite ranked by `measure_id_expr`:
`pl.struct("stratifier_id", "column_number", "line_number")`. -/
def measureComposite (d : DecodedVarRow) : Nat × Option Nat × Option Nat :=
  (d.stratifier_id, d.column_number, d.line_number)

/-- `measure_id_expr`: attach `measure_id` as the dense rank of the composite
over all decoded (measure) rows of the frame. -/
def addMeasureIds (decoded : List DecodedVarRow) : List ParsedVarRow :=
  decoded.map (fun d =>
    { stratifier_id := d.stratifier_id
      row_id := d.row_id
      varName := d.varName
      table_id := d.table_id
      column_id := d.column_id
      line_id := d.line_id
      column_number := d.column_number
      line_number := d.line_number
      measure_id := denseRank (decoded.map measureComposite) (measureComposite d) })

/-- `_parse_vars` for a subject endpoint, restricted to the decode and
`measure_id` columns the claims are about. -/
def parseVarsSubject (rows : List TidyVarRow) : List ParsedVarRow :=
  addMeasureIds (rows.map subjectDecode)

/-! ### Label decoding (`APIDataMixin._parse_label`) -/

/-- polars `str.count_matches("!!", literal=True)`: non-overlapping count of
the literal two-character delimiter `!!`. -/
def countBang : List Char → Nat
  | [] => 0
  | [_] => 0
  | a :: b :: rest =>
    if a = '!' ∧ b = '!' then countBang rest + 1
    else countBang (b :: rest)

/-- polars `str.split_exact("!!", n)` body: split on the literal delimiter
`!!` at most `n` times, scanning left to right, the remainder staying in the
last piece. -/
def splitBangN : Nat → List Char → List (List Char)
  | 0, l => [l]
  | _ + 1, [] => [[]]
  | _ + 1, [a] => [[a]]
  | n + 1, a :: b :: rest =>
    if a = '!' ∧ b = '!' then [] :: splitBangN n rest
    else
      match splitBangN (n + 1) (b :: rest) with
      | [] => [[a]]
      | g :: gs => (a :: g) :: gs

/-- The nullable fields of `str.split_exact("!!", n)`: pieces beyond the ones
actually produced are null. -/
def splitExactBang (n : Nat) (s : String) : List (Option String) :=
  let ps := (splitBangN n s.data).map String.mk
  ps.map some ++ List.replicate (n + 1 - ps.length) none

/-- `str.replace_all(r"--|:", "")`: delete every `--` and `:`. -/
def stripPunctL : List Char → List Char
  | [] => []
  | '-' :: '-' :: rest => stripPunctL rest
  | ':' :: rest => stripPunctL rest
  | a :: rest => a :: stripPunctL rest

/-- `str.strip_chars()`: trim whitespace from both ends. -/
def trimWsL (l : List Char) : List Char :=
  ((l.dropWhile Char.isWhitespace).reverse.dropWhile Char.isWhitespace).reverse

/-- The per-segment cleanup chain of `_parse_label`:
`replace_all(r"--|:", "")`, `strip_chars()`, `to_lowercase()`. -/
def cleanSeg (s : String) : String :=
  String.mk ((trimWsL (stripPunctL s.data)).map Char.toLower)

/-- The label columns produced by `_parse_label` (after the `label_end` /
`label_end_misc` concatenation and drop). -/
structure ParsedLabel where
  exclaim_count : Option Nat
  label_line_type : Option String
  label_concept_base : Option String
  label_stratifier : Option String
  label_end : Option String
deriving DecidableEq

/-- `_parse_label` for one (possibly null) label: count the `!!`s, split into
five nullable fields, clean each, fill the null `label_end_misc` with the
empty string and concatenate it behind `label_end` with a single-space
separator (`concat_str` propagates a null `label_end`). -/
def parseLabel (label : Option String) : ParsedLabel :=
  match label with
  | none =>
    { exclaim_count := none, label_line_type := none, label_concept_base := none
      label_stratifier := none, label_end := none }
  | some s =>
    let f := (splitExactBang 4 s).map (Option.map cleanSeg)
    let endMisc := (f.getD 4 none).getD ""
    { exclaim_count := some (countBang s.data)
      label_line_type := f.getD 0 none
      label_concept_base := f.getD 1 none
      label_stratifier := f.getD 2 none
      label_end := (f.getD 3 none).map (fun e => e ++ " " ++ endMisc) }

/-- How many of the four ordinal hierarchy segments are non-null. -/
def nonNullSegCount (p : ParsedLabel) : Nat :=
  [p.label_line_type, p.label_concept_base, p.label_stratifier, p.label_end].countP Option.isSome

/-! ### Extra/stratifier row classification (`_extra` / `_no_extra`) -/

/-- One row of `_lazyframe` as consumed by `_extra`: the row id, the raw
variable code and the (nullable) `group` column joined from the variable
metadata. -/
structure JoinedRow where
  row_id : Nat
  varName : String
  group : Option String
deriving DecidableEq

/-- `pl.col("variable").str.split("_").list.first()`: the text before the
first underscore. -/
def computedGroup (v : String) : String :=
  (splitc '_' v).headD ""

/-- `pl.col("group").unique().drop_nulls().implode()` broadcast to every row:
the distinct non-null group values present in the frame. -/
def expectedGroups (rows : List JoinedRow) : List String :=
  (rows.filterMap (fun r => r.group)).dedup

/-- The `_extra` filter predicate:
`~computed_group.is_in(expected_groups)`. -/
def isExtraRow (rows : List JoinedRow) (r : JoinedRow) : Bool :=
  !(expectedGroups rows).contains (computedGroup r.varName)

/-- `_extra`: the rows satisfying the predicate. -/
def extraRows (rows : List JoinedRow) : List JoinedRow :=
  rows.filter (isExtraRow rows)

/-- `_no_extra`: anti-join of the frame with `_extra` on `row_id`. -/
def noExtraRows (rows : List JoinedRow) : List JoinedRow :=
  rows.filter (fun r => (extraRows rows).all (fun x => x.row_id != r.row_id))

/-! ### `APIData.long` (`dataops.apis.acs`): the `value_type` column -/

/-- One row of `standard_parse()` as consumed by `long()` (the columns that
feed `value_type`). -/
structure StdRow where
  stratifier_id : Nat
  varName : String
  label_line_type : Option String
deriving DecidableEq

/-- One row of the tidy long output (the columns the claim is about);
`value_type` is kept nullable exactly as the polars column is. -/
structure LongOutRow where
  stratifier_id : Nat
  varName : String
  value_type : Option String
deriving DecidableEq

/-- The `value_type` expression of `long()`:
`pl.when(label_line_type.is_null()).then(variable).otherwise(label_line_type)`. -/
def valueTypeExpr (r : StdRow) : Option String :=
  match r.label_line_type with
  | none => some r.varName
  | some t => some t

/-- The sort key of `long()`: `(stratifier_id, variable)` ascending. -/
def stdRowLe (a b : StdRow) : Prop :=
  a.stratifier_id < b.stratifier_id ∨
    (a.stratifier_id = b.stratifier_id ∧ strLe a.varName b.varName = true)

instance : DecidableRel stdRowLe := fun a b => by
  unfold stdRowLe; infer_instance

/-- `long()` restricted to the embedded columns: sort by
`(stratifier_id, variable)` and compute `value_type` per row. -/
def longRows (input : List StdRow) : List LongOutRow :=
  (List.insertionSort stdRowLe input).map
    (fun r => { stratifier_id := r.stratifier_id, varName := r.varName
                value_type := valueTypeExpr r })

/-! ### Dimension keys of the star-model builder
(`ACSStarModelBuilder._starter` and the `set_*` dimension steps)

`_starter` evaluates `user_input.with_columns(<six null id columns>)
.with_columns(<strat-id rank>, pl.when(measure_id.is_not_null())
.then(pl.struct(<rank exprs>)))` — both calls succeed and return a
LazyFrame — and the source text then invokes `.otherwise(...)` on that
LazyFrame.  A LazyFrame has no `otherwise` attribute, so the lookup raises
`AttributeError` for every input, before any frame is produced; `_long`,
`_strats` and the default `set_*` dimension steps evaluate `_starter` and
propagate the exception. -/

/-- One row of the tidy long frame fed to the builder (the columns used by
the dimension-key assignment). -/
structure TidyRow where
  stratifier_id : Nat
  measure_id : Option Nat
  universeCol : String
  concept : String
  endpoint : String
  dataset : String
  value_type : String
deriving DecidableEq

/-- One row of the frame `_starter`'s annotation declares (the tidy columns
with the six dimension-id columns and the endpoint-based stratifier id); no
such frame is ever produced. -/
structure StarterRow where
  row : TidyRow
  endpoint_based_strat_id : Nat
  DimUniverseID : Option Nat
  DimConceptID : Option Nat
  DimEndpointID : Option Nat
  DimDatasetID : Option Nat
  DimValueTypeID : Option Nat
  DimMeasureID : Option Nat
deriving DecidableEq

/-- The exception raised by `_starter`'s `.otherwise` attribute lookup on the
LazyFrame returned by `with_columns`. -/
def starterError : String :=
  "AttributeError: 'LazyFrame' object has no attribute 'otherwise'"

/-- `_starter`: the two `with_columns` calls build a LazyFrame, and the
source then chains `.otherwise(...)` onto it (and wraps the assignment in a
1-tuple); the attribute lookup fails before anything depends on the input
frame, so evaluation raises unconditionally. -/
def starter (_input : List TidyRow) : Except String (List StarterRow) :=
  .error starterError

/-- `_long`: `_starter.filter(measure_id.is_not_null())`; evaluating
`_starter` raises, and the exception propagates. -/
def longPartition (input : List TidyRow) : Except String (List StarterRow) :=
  (starter input).map (fun rows => rows.filter (fun r => r.row.measure_id.isSome))

/-- Sort order used by the `set_*` dimension steps (`sort(by=key)`, nulls
first as in polars). -/
def keyPairLe (a b : Option Nat × String) : Prop :=
  match a.1, b.1 with
  | none, _ => True
  | some _, none => False
  | some x, some y => x ≤ y

instance : DecidableRel keyPairLe := fun a b => by
  unfold keyPairLe
  rcases a.1 with _ | x <;> rcases b.1 with _ | y <;> infer_instance

/-- `set_universe` with no explicit frame:
`_long.select(["DimUniverseID", "universe"]).unique().sort(by="DimUniverseID")`
— every part downstream of `_long` is unreachable, and the step returns
`_starter`'s exception. -/
def setUniverse (input : List TidyRow) : Except String (List (Option Nat × String)) :=
  (longPartition input).map (fun rows =>
    List.insertionSort keyPairLe
      ((rows.map (fun r => (r.DimUniverseID, r.row.universeCol))).dedup))

/-! ### Stratifier dimension collapsing
(`dim_starter` / `dim_walk`, `builders/testingbuilder.py`)

The input is `var_values`: the stratifier partition projected to
`(value, variable, endpoint_based_strat_id)`.  A "group" is one distinct
`endpoint_based_strat_id`. -/

/-- One stratifier row of `var_values`. -/
structure StratRow where
  varName : String
  value : Option String
  ebsId : Nat
deriving DecidableEq

/-- The distinct `endpoint_based_strat_id`s (one pivot row per group). -/
def groupIds (rows : List StratRow) : List Nat :=
  (rows.map (fun r => r.ebsId)).dedup

/-- `variable_sets`: sort by `(endpoint_based_strat_id, variable)`, group by
the id and aggregate the distinct variables in order — i.e. the sorted
deduplicated variable list of the group. -/
def variableSet (rows : List StratRow) (g : Nat) : List String :=
  (List.insertionSort (fun a b => strLe a b)
    ((rows.filter (fun r => r.ebsId == g)).map (fun r => r.varName))).dedup

/-- `variable_set_id`: dense rank of the variable set over the grouped
frame. -/
def variableSetId (rows : List StratRow) (g : Nat) : Nat :=
  denseRank ((groupIds rows).map (variableSet rows)) (variableSet rows g)

/-- The pivot's column list: every distinct variable of the frame. -/
def allVariables (rows : List StratRow) : List String :=
  (rows.map (fun r => r.varName)).dedup

/-- One pivot cell: the value of group `g` for variable `v` (null when the
group has no such variable; the builder's input has one row per
(group, variable) pair, cf. the `Functional` hypothesis). -/
def cell (rows : List StratRow) (g : Nat) (v : String) : Option String :=
  (rows.find? (fun r => r.ebsId == g && r.varName == v)).bind (fun r => r.value)

/-- `dim_starter`'s ranked struct for one pivot row:
`pl.struct(pl.exclude("endpoint_based_strat_id"))`, i.e. the
`variable_set_id` together with every pivot cell of the group. -/
def rowContent (rows : List StratRow) (g : Nat) : Nat × List (Option String) :=
  (variableSetId rows g, (allVariables rows).map (cell rows g))

/-- `var_set_value_id` alias `DimStratifierID`: dense rank of the full pivot
row content over the grouped frame. -/
def dimStratifierId (rows : List StratRow) (g : Nat) : Nat :=
  denseRank ((groupIds rows).map (rowContent rows)) (rowContent rows g)

/-- The (variable, value) pairs carried by group `g`. -/
def stratPairs (rows : List StratRow) (g : Nat) : List (String × Option String) :=
  (rows.filter (fun r => r.ebsId == g)).map (fun r => (r.varName, r.value))

/-- The stratifier frame is one row per (group, variable) pair: two rows of
the same group on the same variable carry the same value. -/
def Functional (rows : List StratRow) : Prop :=
  ∀ r ∈ rows, ∀ r' ∈ rows, r.ebsId = r'.ebsId → r.varName = r'.varName → r.value = r'.value

/-- Concrete stratifier frame: groups 1 and 2 carry identical (variable,
value) pairs, group 3 differs. -/
def collapseRows : List StratRow :=
  [⟨"AGE", some "25", 1⟩, ⟨"SEX", some "F", 1⟩,
   ⟨"AGE", some "25", 2⟩, ⟨"SEX", some "F", 2⟩,
   ⟨"AGE", some "30", 3⟩]

/-! ### Builder assembly (`ACSStarModelBuilder` / `build`) -/

/-- A materialized table (rows of text cells); `pl.LazyFrame()` is the empty
table. -/
def Table : Type := List (List String)

instance : DecidableEq Table := by unfold Table; infer_instance

/-- The finished immutable bundle (`ACSStarModel`). -/
structure ACSStarModel where
  fact : Table
  dim_stratifiers : Table
  dim_universe : Table
  dim_concept : Table
  dim_valuetype : Table
  dim_measure : Table
  dim_endpoint : Table
  dim_dataset : Table
deriving DecidableEq

/-- The builder state: the eight table fields, all defaulting to the empty
table exactly as the pydantic fields default to `pl.LazyFrame()`. -/
structure ACSStarModelBuilder where
  api_data : Table
  fact : Table := []
  dim_measure : Table := []
  dim_stratifiers : Table := []
  dim_universe : Table := []
  dim_concept : Table := []
  dim_endpoint : Table := []
  dim_valuetype : Table := []
  dim_dataset : Table := []
deriving DecidableEq

/-- Constructing the builder (`ACSStarModelBuilder(api_data=...)`). -/
def initBuilder (apiData : Table) : ACSStarModelBuilder :=
  { api_data := apiData }

/-- One invoked `set_*` step with its explicit table argument (each `set_*`
method assigns its slot and returns `self`). -/
inductive SetStep
  | fact (t : Table)
  | measure (t : Table)
  | stratifiers (t : Table)
  | universeT (t : Table)
  | concept (t : Table)
  | endpoint (t : Table)
  | valuetype (t : Table)
  | dataset (t : Table)
deriving DecidableEq

/-- Which slot a step populates. -/
def SetStep.slot : SetStep → Nat
  | .fact _ => 0
  | .measure _ => 1
  | .stratifiers _ => 2
  | .universeT _ => 3
  | .concept _ => 4
  | .endpoint _ => 5
  | .valuetype _ => 6
  | .dataset _ => 7

/-- Apply one `set_*` call to the builder state. -/
def applyStep (b : ACSStarModelBuilder) : SetStep → ACSStarModelBuilder
  | .fact t => { b with fact := t }
  | .measure t => { b with dim_measure := t }
  | .stratifiers t => { b with dim_stratifiers := t }
  | .universeT t => { b with dim_universe := t }
  | .concept t => { b with dim_concept := t }
  | .endpoint t => { b with dim_endpoint := t }
  | .valuetype t => { b with dim_valuetype := t }
  | .dataset t => { b with dim_dataset := t }

/-- Apply a chained sequence of `set_*` calls. -/
def applySteps (b : ACSStarModelBuilder) (steps : List SetStep) : ACSStarModelBuilder :=
  steps.foldl applyStep b

/-- `build()`: read the eight fields into the finished model (a total
function — it performs no checks and touches nothing else). -/
def build (b : ACSStarModelBuilder) : ACSStarModel :=
  { fact := b.fact
    dim_stratifiers := b.dim_stratifiers
    dim_universe := b.dim_universe
    dim_concept := b.dim_concept
    dim_valuetype := b.dim_valuetype
    dim_measure := b.dim_measure
    dim_endpoint := b.dim_endpoint
    dim_dataset := b.dim_dataset }

/-- Numbering of the builder slots, for stating preservation uniformly. -/
def slotVec (b : ACSStarModelBuilder) : Nat → Table
  | 0 => b.fact
  | 1 => b.dim_measure
  | 2 => b.dim_stratifiers
  | 3 => b.dim_universe
  | 4 => b.dim_concept
  | 5 => b.dim_endpoint
  | 6 => b.dim_valuetype
  | 7 => b.dim_dataset
  | _ => []

/-! ## Theorems -/

theorem denseRank_inj {α : Type} [DecidableEq α] {keys : List α} {a b : α}
    (ha : a ∈ keys) (hb : b ∈ keys) :
    denseRank keys a = denseRank keys b ↔ a = b := by
  unfold denseRank
  constructor
  · intro h
    exact (List.indexOf_inj (List.mem_dedup.mpr ha) (List.mem_dedup.mpr hb)).mp (by omega)
  · intro h
    rw [h]

theorem denseRank_mem_range {α : Type} [DecidableEq α] {keys : List α} {a : α}
    (ha : a ∈ keys) :
    1 ≤ denseRank keys a ∧ denseRank keys a ≤ keys.dedup.length := by
  unfold denseRank
  have h := List.indexOf_lt_length.mpr (List.mem_dedup.mpr ha)
  omega

theorem denseRank_surj {α : Type} [DecidableEq α] (keys : List α) {m : Nat}
    (h1 : 1 ≤ m) (h2 : m ≤ keys.dedup.length) :
    ∃ a ∈ keys, denseRank keys a = m := by
  have hlt : m - 1 < keys.dedup.length := by omega
  refine ⟨keys.dedup[m - 1], List.mem_dedup.mp (keys.dedup.getElem_mem hlt), ?_⟩
  unfold denseRank
  rw [List.indexOf_getElem (List.nodup_dedup keys) (m - 1) hlt]
  omega

theorem applyStep_slotVec_ne (b : ACSStarModelBuilder) (s : SetStep) (n : Nat)
    (h : SetStep.slot s ≠ n) : slotVec (applyStep b s) n = slotVec b n := by
  rcases n with _ | _ | _ | _ | _ | _ | _ | _ | n <;>
    cases s <;>
      first
        | rfl
        | exact absurd rfl h

theorem applySteps_slotVec (steps : List SetStep) (b : ACSStarModelBuilder) (n : Nat)
    (h : ∀ s ∈ steps, SetStep.slot s ≠ n) :
    slotVec (applySteps b steps) n = slotVec b n := by
  induction steps generalizing b with
  | nil => rfl
  | cons s rest ih =>
    have hs : SetStep.slot s ≠ n := h s (List.mem_cons_self s rest)
    have hr : ∀ x ∈ rest, SetStep.slot x ≠ n := fun x hx => h x (List.mem_cons_of_mem s hx)
    calc slotVec (applySteps (applyStep b s) rest) n
        = slotVec (applyStep b s) n := ih (applyStep b s) hr
      _ = slotVec b n := applyStep_slotVec_ne b s n hs

/-- C9: calling `build()` on a builder for which some or all `set_*` steps
were never invoked does not raise — `build` is a total function of the
builder state — and every slot whose `set_*` step does not occur in the
invoked chain comes out as the empty table. -/
theorem build_empty_slots (apiData : Table) (steps : List SetStep) :
    ((∀ s ∈ steps, SetStep.slot s ≠ 0) →
        (build (applySteps (initBuilder apiData) steps)).fact = []) ∧
    ((∀ s ∈ steps, SetStep.slot s ≠ 1) →
        (build (applySteps (initBuilder apiData) steps)).dim_measure = []) ∧
    ((∀ s ∈ steps, SetStep.slot s ≠ 2) →
        (build (applySteps (initBuilder apiData) steps)).dim_stratifiers = []) ∧
    ((∀ s ∈ steps, SetStep.slot s ≠ 3) →
        (build (applySteps (initBuilder apiData) steps)).dim_universe = []) ∧
    ((∀ s ∈ steps, SetStep.slot s ≠ 4) →
        (build (applySteps (initBuilder apiData) steps)).dim_concept = []) ∧
    ((∀ s ∈ steps, SetStep.slot s ≠ 5) →
        (build (applySteps (initBuilder apiData) steps)).dim_endpoint = []) ∧
    ((∀ s ∈ steps, SetStep.slot s ≠ 6) →
        (build (applySteps (initBuilder apiData) steps)).dim_valuetype = []) ∧
    ((∀ s ∈ steps, SetStep.slot s ≠ 7) →
        (build (applySteps (initBuilder apiData) steps)).dim_dataset = []) := by
  refine ⟨fun h => ?_, fun h => ?_, fun h => ?_, fun h => ?_, fun h => ?_, fun h => ?_,
    fun h => ?_, fun h => ?_⟩
  · exact applySteps_slotVec steps (initBuilder apiData) 0 h
  · exact applySteps_slotVec steps (initBuilder apiData) 1 h
  · exact applySteps_slotVec steps (initBuilder apiData) 2 h
  · exact applySteps_slotVec steps (initBuilder apiData) 3 h
  · exact applySteps_slotVec steps (initBuilder apiData) 4 h
  · exact applySteps_slotVec steps (initBuilder apiData) 5 h
  · exact applySteps_slotVec steps (initBuilder apiData) 6 h
  · exact applySteps_slotVec steps (initBuilder apiData) 7 h

/-- C9 witness: a builder on which only `set_fact` was invoked builds, and
every other slot of the result is the empty table. -/
theorem build_empty_slots_witness :
    (build (applySteps (initBuilder []) [SetStep.fact [["x"]]])).dim_universe = [] ∧
    (build (applySteps (initBuilder []) [SetStep.fact [["x"]]])).dim_stratifiers = [] := by
  refine ⟨?_, ?_⟩
  · exact (build_empty_slots [] [SetStep.fact [["x"]]]).2.2.2.1 (by decide)
  · exact (build_empty_slots [] [SetStep.fact [["x"]]]).2.2.1 (by decide)

theorem removePrefixPy_append (p t : String) : removePrefixPy (p ++ t) p = t := by
  unfold removePrefixPy startsWithPy
  rw [if_pos]
  · rw [String.data_append, List.drop_left]
  · rw [List.isPrefixOf_iff_prefix, String.data_append]
    exact List.prefix_append _ _

theorem removeSuffixPy_append (t p : String) : removeSuffixPy (t ++ p) p = t := by
  unfold removeSuffixPy endsWithPy
  rw [if_pos]
  · rw [String.data_append]
    have hlen : (t.data ++ p.data).length - p.data.length = t.data.length := by simp
    rw [hlen, List.take_left]
  · rw [List.isPrefixOf_iff_prefix, String.data_append, List.reverse_append]
    exact List.prefix_append _ _

theorem data_group_wrapped (g : String) :
    ("group(" ++ g ++ ")").data = "group".data ++ ('(' :: (g.data ++ [')'])) := by
  have h1 : ("group(" : String).data = "group".data ++ ['('] := by decide
  simp [String.data_append, h1]

theorem startsWith_group_wrapped (g : String) :
    startsWithPy ("group(" ++ g ++ ")") "group" = true := by
  unfold startsWithPy
  rw [List.isPrefixOf_iff_prefix, data_group_wrapped]
  exact List.prefix_append _ _

theorem join_singleton (v : String) : String.join [v] = v := by
  show "" ++ v = v
  apply String.ext
  rw [String.data_append]
  rfl

theorem group_wrapped (g : String) : group ["group(" ++ g ++ ")"] = some g := by
  simp only [group, join_singleton]
  rw [if_pos ⟨by simp, startsWith_group_wrapped g⟩]
  have hassoc : "group(" ++ g ++ ")" = "group(" ++ (g ++ ")") := by
    rw [String.append_assoc]
  rw [hassoc, removePrefixPy_append, removeSuffixPy_append]

/-- C10: for every endpoint whose dataset has a second path segment and ends
in the segment `profile`, and whose variables are not a single group-style
reference (so the derived `group` is `None`), evaluating `table_type` fails
with the error from subscripting the absent group — it does not return
`unknown`. -/
theorem tableType_profile_group_error (dataset : String) (vars : List String) (middle : String)
    (hm : (datasetParts dataset).get? 1 = some middle)
    (hl : (datasetParts dataset).getLastD "" = "profile")
    (hg : group vars = none) :
    tableType dataset vars = .error "TypeError: NoneType is not subscriptable" := by
  have hng : ¬(vars.length < 2 ∧ startsWithPy (String.join vars) "group" = true) := by
    intro hc
    simp only [group] at hg
    rw [if_pos hc] at hg
    exact Option.noConfusion hg
  simp only [tableType, hm]
  rw [if_neg (fun hc => hng ⟨hc.1, hc.2.1⟩), hl, if_pos rfl, hg]

/-- C10 witness: a two-variable profile endpoint errors out of `table_type`. -/
theorem tableType_profile_group_error_witness :
    tableType "acs/acs5/profile" ["NAME", "DP05_0001E"] =
      .error "TypeError: NoneType is not subscriptable" :=
  tableType_profile_group_error "acs/acs5/profile" ["NAME", "DP05_0001E"] "acs5"
    (by decide) (by decide) (by decide)

/-- C6 counterexample: for the valid endpoint with dataset `a/b/c/c` and
variables `["group(X)"]`, the last two dataset path segments are equal and
the variables are a single group reference, yet `table_type` is `unknown`,
not `detailed` — the code compares the last segment with the second segment
(`dataset_parts[1]`), not with the second-to-last. -/
theorem tableType_last_two_cex :
    datasetParts "a/b/c/c" = ["a", "b", "c", "c"] ∧
    (datasetParts "a/b/c/c").getLastD "" = (datasetParts "a/b/c/c").getD 2 "" ∧
    tableType "a/b/c/c" ["group(X)"] = .ok .unknown ∧
    tableType "a/b/c/c" ["group(X)"] ≠ .ok .detailed := by
  decide

/-- C6 (amended): for every endpoint whose dataset has a second path segment:
a single `group(<G>)` variable entry together with the last segment equalling
the *second* segment (`dataset_parts[1]`) classifies as `detailed`; a single
nonempty `group(<G>)` entry with last segment `profile` (and not the detailed
case) classifies by the group's first character, `D` as data-profile, `C` as
comparison-profile, anything else `unknown`; and an enumerated (non-group)
variable list with a non-`profile` last segment classifies by Enum lookup of
the last segment, anything unrecognized as `unknown`. -/
theorem tableType_amended (dataset : String) (vars : List String) (middle : String)
    (hm : (datasetParts dataset).get? 1 = some middle) :
    ((∃ g, vars = ["group(" ++ g ++ ")"]) →
        (datasetParts dataset).getLastD "" = middle →
        tableType dataset vars = .ok .detailed) ∧
    (∀ g c cs, vars = ["group(" ++ g ++ ")"] → g.data = c :: cs →
        (datasetParts dataset).getLastD "" = "profile" →
        (datasetParts dataset).getLastD "" ≠ middle →
        tableType dataset vars =
          .ok (if c = 'D' then .dataprofile else if c = 'C' then .cprofile else .unknown)) ∧
    ((2 ≤ vars.length ∨ startsWithPy (String.join vars) "group" = false) →
        (datasetParts dataset).getLastD "" ≠ "profile" →
        tableType dataset vars =
          .ok ((tableTypeOfName ((datasetParts dataset).getLastD "")).getD .unknown)) := by
  refine ⟨?_, ?_, ?_⟩
  · rintro ⟨g, rfl⟩ hlast
    simp only [tableType, hm]
    rw [if_pos ⟨by simp, by rw [join_singleton]; exact startsWith_group_wrapped g, hlast⟩]
  · rintro g c cs rfl hgd hprof hne
    simp only [tableType, hm]
    rw [if_neg (fun hc => hne hc.2.2), hprof, if_pos rfl]
    simp only [group_wrapped, hgd]
    split_ifs <;> rfl
  · intro hnot hprof
    have hng : ¬(vars.length < 2 ∧ startsWithPy (String.join vars) "group" = true ∧
        (datasetParts dataset).getLastD "" = middle) := by
      rintro ⟨h1, h2, _⟩
      rcases hnot with h | h
      · omega
      · rw [h2] at h
        exact Bool.noConfusion h
    simp only [tableType, hm]
    rw [if_neg hng, if_neg hprof]

/-- C6 witness: the amended classification at concrete endpoints — a detailed
pull (`acs/acs5` with `group(B25064)`), a data-profile pull
(`acs/acs5/profile` with `group(DP05)`), and an enumerated subject pull. -/
theorem tableType_amended_witness :
    tableType "acs/acs5" ["group(" ++ "B25064" ++ ")"] = .ok .detailed ∧
    tableType "acs/acs5/profile" ["group(" ++ "DP05" ++ ")"] = .ok .dataprofile ∧
    tableType "acs/acs1/subject" ["NAME", "S2301_C01_001E"] = .ok .subject := by
  refine ⟨?_, ?_, ?_⟩
  · exact (tableType_amended "acs/acs5" _ "acs5" (by decide)).1 ⟨"B25064", rfl⟩ (by decide)
  · exact (tableType_amended "acs/acs5/profile" _ "acs5" (by decide)).2.1 "DP05" 'D'
      "P05".data rfl (by decide) (by decide) (by decide)
  · exact (tableType_amended "acs/acs1/subject" _ "acs1" (by decide)).2.2
      (by decide) (by decide)

/-- C5 counterexample: in a frame where variable `B01_001E` joined its group
`B01` but variable `B01_002E` did not (its `group` is null), the null-group
row is *not* classified extra, because its prefix `B01` is among the group
values present in the frame — against the claim's "or the row carries no
group" disjunct. -/
theorem extra_null_group_cex :
    (⟨2, "B01_002E", none⟩ : JoinedRow) ∈
      ([⟨1, "B01_001E", some "B01"⟩, ⟨2, "B01_002E", none⟩] : List JoinedRow) ∧
    (⟨2, "B01_002E", none⟩ : JoinedRow).group = none ∧
    isExtraRow [⟨1, "B01_001E", some "B01"⟩, ⟨2, "B01_002E", none⟩]
      ⟨2, "B01_002E", none⟩ = false := by
  decide

/-- C5 (amended): a row of the long-form frame is classified extra exactly
when its variable's group prefix (the text before the first `_`) is not among
the distinct non-null `group` values present in the frame — a row with a null
group is extra only when that membership test also fails; and when the row
ids are unique, the extra and non-extra rows partition the frame (every row
lies in exactly one of the two parts). -/
theorem extra_partition_amended (rows : List JoinedRow)
    (hnodup : (rows.map (fun r => r.row_id)).Nodup) :
    (∀ r ∈ rows, (isExtraRow rows r = true ↔ computedGroup r.varName ∉ expectedGroups rows)) ∧
    (∀ r ∈ rows,
      (r ∈ extraRows rows ∧ r ∉ noExtraRows rows) ∨
      (r ∉ extraRows rows ∧ r ∈ noExtraRows rows)) := by
  constructor
  · intro r _
    simp [isExtraRow]
  · intro r hr
    by_cases h : isExtraRow rows r = true
    · left
      refine ⟨List.mem_filter.mpr ⟨hr, h⟩, fun hmem => ?_⟩
      have hall := (List.mem_filter.mp hmem).2
      have := (List.all_eq_true.mp hall) r (List.mem_filter.mpr ⟨hr, h⟩)
      simp at this
    · right
      refine ⟨fun hmem => h (List.mem_filter.mp hmem).2, List.mem_filter.mpr ⟨hr, ?_⟩⟩
      rw [List.all_eq_true]
      intro x hx
      have hxrows := (List.mem_filter.mp hx).1
      have hxextra := (List.mem_filter.mp hx).2
      by_contra hbne
      have hid : x.row_id = r.row_id := by
        simpa using hbne
      have hxr : x = r :=
        List.inj_on_of_nodup_map hnodup hxrows hr hid
      rw [hxr] at hxextra
      exact h hxextra

/-- C5 witness: in the two-row frame of the counterexample the classification
matches the membership test and the two parts partition the frame. -/
theorem extra_partition_amended_witness :
    (isExtraRow [⟨1, "B01_001E", some "B01"⟩, ⟨2, "NAME", none⟩] ⟨2, "NAME", none⟩ = true ↔
      computedGroup "NAME" ∉ expectedGroups [⟨1, "B01_001E", some "B01"⟩, ⟨2, "NAME", none⟩]) ∧
    (((⟨2, "NAME", none⟩ : JoinedRow) ∈
        extraRows [⟨1, "B01_001E", some "B01"⟩, ⟨2, "NAME", none⟩] ∧
      (⟨2, "NAME", none⟩ : JoinedRow) ∉
        noExtraRows [⟨1, "B01_001E", some "B01"⟩, ⟨2, "NAME", none⟩]) ∨
    ((⟨2, "NAME", none⟩ : JoinedRow) ∉
        extraRows [⟨1, "B01_001E", some "B01"⟩, ⟨2, "NAME", none⟩] ∧
      (⟨2, "NAME", none⟩ : JoinedRow) ∈
        noExtraRows [⟨1, "B01_001E", some "B01"⟩, ⟨2, "NAME", none⟩])) := by
  have h := extra_partition_amended
    [⟨1, "B01_001E", some "B01"⟩, ⟨2, "NAME", none⟩] (by decide)
  exact ⟨h.1 ⟨2, "NAME", none⟩ (by decide), h.2 ⟨2, "NAME", none⟩ (by decide)⟩

theorem splitBangN_length (n : Nat) (l : List Char) :
    (splitBangN n l).length = min (countBang l) n + 1 := by
  induction n, l using splitBangN.induct with
  | case1 l => simp [splitBangN, Nat.min_zero]
  | case2 n => simp [splitBangN, countBang]
  | case3 n a => simp [splitBangN, countBang]
  | case4 n a b rest h ih =>
    rw [splitBangN, countBang, if_pos h, if_pos h]
    simp only [List.length_cons, ih]
    omega
  | case5 n a b rest h hs ih =>
    rw [hs] at ih
    simp at ih
  | case6 n a b rest h g gs hs ih =>
    rw [splitBangN, countBang, if_neg h, if_neg h, hs]
    rw [hs] at ih
    simp only [List.length_cons] at ih ⊢
    omega

/-- C4 counterexample: the label `a!!b!!c` contains exactly 2 occurrences of
`!!` but decodes to exactly 3 non-null hierarchy segments
(line_type, concept_base, stratifier), not 2. -/
theorem parseLabel_two_delims_cex :
    (parseLabel (some "a!!b!!c")).exclaim_count = some 2 ∧
    nonNullSegCount (parseLabel (some "a!!b!!c")) = 3 ∧
    nonNullSegCount (parseLabel (some "a!!b!!c")) ≠ 2 := by
  decide

/-- C4 (amended): each label splits on `!!` into up to 4 ordinal segments
with any remaining text concatenated onto the final segment; for EVERY label,
`exclaim_count` equals the literal (non-overlapping) count `k` of `!!`
substrings; the number of non-null hierarchy segments is `min k 3 + 1` — in
particular exactly `k + 1` for every `k ≤ 3` — and the unused trailing
segments are null: past the first `min k 3 + 1` entries the ordinal segment
list is identically null. -/
theorem parseLabel_segments_amended (s : String) (k : Nat)
    (hk : countBang s.data = k) :
    (parseLabel (some s)).exclaim_count = some k ∧
    nonNullSegCount (parseLabel (some s)) = min k 3 + 1 ∧
    [(parseLabel (some s)).label_line_type, (parseLabel (some s)).label_concept_base,
      (parseLabel (some s)).label_stratifier,
      (parseLabel (some s)).label_end].drop (min k 3 + 1) =
      List.replicate (3 - k) none := by
  refine ⟨by simp [parseLabel, hk], ?_⟩
  by_cases hk3 : k ≤ 3
  · have hlen : (splitBangN 4 s.data).length = k + 1 := by
      rw [splitBangN_length, hk]; omega
    interval_cases k
    · rcases List.length_eq_one.mp hlen with ⟨a, ha⟩
      simp [parseLabel, nonNullSegCount, splitExactBang, ha]
    · rcases List.length_eq_two.mp hlen with ⟨a, b, hab⟩
      simp [parseLabel, nonNullSegCount, splitExactBang, hab]
    · rcases List.length_eq_three.mp hlen with ⟨a, b, c, habc⟩
      simp [parseLabel, nonNullSegCount, splitExactBang, habc]
    · obtain ⟨a, t, ht⟩ : ∃ a t, splitBangN 4 s.data = a :: t := by
        cases hx : splitBangN 4 s.data with
        | nil => rw [hx] at hlen; simp at hlen
        | cons a t => exact ⟨a, t, rfl⟩
      rw [ht] at hlen
      simp only [List.length_cons] at hlen
      rcases List.length_eq_three.mp (by omega : t.length = 3) with ⟨b, c, d, hbcd⟩
      subst hbcd
      simp [parseLabel, nonNullSegCount, splitExactBang, ht]
  · have hm : min k 3 = 3 := by omega
    have hz : 3 - k = 0 := by omega
    have hlen : (splitBangN 4 s.data).length = 5 := by
      rw [splitBangN_length, hk]; omega
    obtain ⟨a, t, ht⟩ : ∃ a t, splitBangN 4 s.data = a :: t := by
      cases hx : splitBangN 4 s.data with
      | nil => rw [hx] at hlen; simp at hlen
      | cons a t => exact ⟨a, t, rfl⟩
    rw [ht] at hlen
    simp only [List.length_cons] at hlen
    obtain ⟨b, u, hu⟩ : ∃ b u, t = b :: u := by
      cases t with
      | nil => simp at hlen
      | cons b u => exact ⟨b, u, rfl⟩
    subst hu
    simp only [List.length_cons] at hlen
    rcases List.length_eq_three.mp (by omega : u.length = 3) with ⟨c, d, e, hcde⟩
    subst hcde
    rw [hm, hz]
    simp [parseLabel, nonNullSegCount, splitExactBang, ht]

/-- C4 witness: a typical one-delimiter census label decodes to exactly two
non-null segments, with the two trailing segments null. -/
theorem parseLabel_segments_amended_witness :
    (parseLabel (some "Estimate!!Total:")).exclaim_count = some 1 ∧
    nonNullSegCount (parseLabel (some "Estimate!!Total:")) = min 1 3 + 1 ∧
    [(parseLabel (some "Estimate!!Total:")).label_line_type,
      (parseLabel (some "Estimate!!Total:")).label_concept_base,
      (parseLabel (some "Estimate!!Total:")).label_stratifier,
      (parseLabel (some "Estimate!!Total:")).label_end].drop (min 1 3 + 1) =
      List.replicate (3 - 1) none :=
  parseLabel_segments_amended "Estimate!!Total:" 1 (by decide)

/-- C3: in the parsed subject-variable frame, every measure row's
`measure_id` equals the dense rank of the composite
(stratifier_id, column_number, line_number) over all measure rows, and any
two rows sharing that composite — in particular rows from different
stratifiers sharing it — receive the same `measure_id`. -/
theorem measureId_dense_rank (rows : List TidyVarRow) (p q : ParsedVarRow)
    (hp : p ∈ parseVarsSubject rows) (hq : q ∈ parseVarsSubject rows) :
    p.measure_id =
      denseRank ((rows.map subjectDecode).map measureComposite)
        (p.stratifier_id, p.column_number, p.line_number) ∧
    ((p.stratifier_id, p.column_number, p.line_number) =
        (q.stratifier_id, q.column_number, q.line_number) →
      p.measure_id = q.measure_id) := by
  unfold parseVarsSubject addMeasureIds at hp hq
  rcases List.mem_map.mp hp with ⟨d, _, rfl⟩
  rcases List.mem_map.mp hq with ⟨e, _, rfl⟩
  refine ⟨rfl, fun h => ?_⟩
  show denseRank _ (measureComposite d) = denseRank _ (measureComposite e)
  rw [show measureComposite d = measureComposite e from h]

/-- C3 witness: the estimate and margin rows of one subject line
(`S0101_C01_001E` / `S0101_C01_001M`) share the composite and the
`measure_id`. -/
theorem measureId_dense_rank_witness :
    (⟨1, 1, "S0101_C01_001E", some "S0101", some "C01", some "001E",
        some 1, some 1, 1⟩ : ParsedVarRow).measure_id =
      denseRank
        (([(⟨1, 1, "S0101_C01_001E"⟩ : TidyVarRow),
            ⟨1, 2, "S0101_C01_001M"⟩].map subjectDecode).map measureComposite)
        (1, some 1, some 1) ∧
    (⟨1, 1, "S0101_C01_001E", some "S0101", some "C01", some "001E",
        some 1, some 1, 1⟩ : ParsedVarRow).measure_id =
      (⟨1, 2, "S0101_C01_001M", some "S0101", some "C01", some "001M",
        some 1, some 1, 1⟩ : ParsedVarRow).measure_id := by
  have h := measureId_dense_rank
    [⟨1, 1, "S0101_C01_001E"⟩, ⟨1, 2, "S0101_C01_001M"⟩]
    ⟨1, 1, "S0101_C01_001E", some "S0101", some "C01", some "001E", some 1, some 1, 1⟩
    ⟨1, 2, "S0101_C01_001M", some "S0101", some "C01", some "001M", some 1, some 1, 1⟩
    (by decide) (by decide)
  exact ⟨h.1, h.2 (by decide)⟩

/-- C2: the dimension-key assignment never runs.  For every tidy input,
evaluating `_starter` raises `AttributeError` (`.otherwise(...)` is invoked
on the LazyFrame returned by `with_columns`), and `_long` and the default
`set_universe` step — like every other `set_*` dimension step, which differs
only in the selected column — propagate that exception instead of producing
a keyed dimension table.  No surrogate keys are ever assigned, so the claimed
dense, contiguous, deterministic numbering is unrealizable as written. -/
theorem setUniverse_attribute_error (input : List TidyRow) :
    starter input = .error starterError ∧
    longPartition input = .error starterError ∧
    setUniverse input = .error starterError :=
  ⟨rfl, rfl, rfl⟩

end Acs
namespace Acs

theorem joinSep_cons₂ (c : Char) (p q : List Char) (qs : List (List Char)) :
    joinSep c (p :: q :: qs) = p ++ c :: joinSep c (q :: qs) := rfl

theorem splitcL_ne_nil (c : Char) (l : List Char) : splitcL c l ≠ [] := by
  induction l with
  | nil => simp [splitcL]
  | cons a as ih =>
    rcases h : splitcL c as with _ | ⟨g, gs⟩
    · exact absurd h ih
    · simp only [splitcL, h]
      split <;> simp

theorem splitcL_cons_sep (c : Char) (l : List Char) :
    splitcL c (c :: l) = [] :: splitcL c l := by
  rcases h : splitcL c l with _ | ⟨g, gs⟩
  · exact absurd h (splitcL_ne_nil c l)
  · simp [splitcL, h]

theorem splitcL_cons_ne (c a : Char) (l : List Char) (ha : a ≠ c) :
    ∃ g gs, splitcL c l = g :: gs ∧ splitcL c (a :: l) = (a :: g) :: gs := by
  rcases h : splitcL c l with _ | ⟨g, gs⟩
  · exact absurd h (splitcL_ne_nil c l)
  · refine ⟨g, gs, rfl, ?_⟩
    simp only [splitcL, h]
    rw [if_neg ha]

theorem splitcL_no_sep (c : Char) (l : List Char) (h : c ∉ l) : splitcL c l = [l] := by
  induction l with
  | nil => rfl
  | cons a as ih =>
    have ha : a ≠ c := fun hac => h (hac ▸ List.mem_cons_self a as)
    have has : c ∉ as := fun hc => h (List.mem_cons_of_mem a hc)
    rcases splitcL_cons_ne c a as ha with ⟨g, gs, hg, hres⟩
    rw [ih has] at hg
    cases hg
    exact hres

theorem splitcL_append_sep (c : Char) (p rest : List Char) (hp : c ∉ p) :
    splitcL c (p ++ c :: rest) = p :: splitcL c rest := by
  induction p with
  | nil => simpa using splitcL_cons_sep c rest
  | cons a as ih =>
    have ha : a ≠ c := fun hac => hp (hac ▸ List.mem_cons_self a as)
    have has : c ∉ as := fun hc => hp (List.mem_cons_of_mem a hc)
    rcases splitcL_cons_ne c a (as ++ c :: rest) ha with ⟨g, gs, hg, hres⟩
    rw [ih has] at hg
    cases hg
    simpa using hres

theorem splitcL_joinSep (c : Char) (ps : List (List Char)) (hne : ps ≠ [])
    (hclean : ∀ p ∈ ps, c ∉ p) :
    splitcL c (joinSep c ps) = ps := by
  induction ps with
  | nil => exact absurd rfl hne
  | cons p rest ih =>
    rcases rest with _ | ⟨q, qs⟩
    · exact splitcL_no_sep c p (hclean p (List.mem_cons_self p []))
    · rw [joinSep_cons₂, splitcL_append_sep c p _ (hclean p (List.mem_cons_self _ _))]
      rw [ih (List.cons_ne_nil q qs) (fun x hx => hclean x (List.mem_cons_of_mem p hx))]

theorem splitcL_pieces_clean (c : Char) (l : List Char) :
    ∀ p ∈ splitcL c l, c ∉ p := by
  induction l with
  | nil =>
    intro p hp
    simp only [splitcL, List.mem_singleton] at hp
    simp [hp]
  | cons a as ih =>
    intro p hp
    by_cases ha : a = c
    · subst ha
      rw [splitcL_cons_sep] at hp
      rcases List.mem_cons.mp hp with hp | hp
      · simp [hp]
      · exact ih p hp
    · rcases splitcL_cons_ne c a as ha with ⟨g, gs, hg, hres⟩
      rw [hres] at hp
      rcases List.mem_cons.mp hp with hp | hp
      · subst hp
        intro hc
        rcases List.mem_cons.mp hc with hc | hc
        · exact ha hc.symm
        · exact ih g (hg ▸ List.mem_cons_self g gs) hc
      · exact ih p (hg ▸ List.mem_cons_of_mem g hp)

theorem joinSep_eq_nil (c : Char) (ps : List (List Char)) (h : joinSep c ps = []) :
    ps = [] ∨ ps = [[]] := by
  rcases ps with _ | ⟨p, rest⟩
  · exact Or.inl rfl
  · rcases rest with _ | ⟨q, qs⟩
    · right
      rw [show joinSep c [p] = p from rfl] at h
      rw [h]
    · rw [joinSep_cons₂] at h
      simp at h

end Acs
namespace Acs

theorem digitCh_lt10 (d : Nat) (hd : d < 10) :
    (digitCh d).toNat - 48 = d ∧ (digitCh d).isDigit = true ∧ digitCh d ≠ '/' ∧
    digitCh d ≠ ',' := by
  interval_cases d <;> exact ⟨by decide, by decide, by decide, by decide⟩

theorem natDigitsRev_eq_digits (fuel n : Nat) (h : n ≤ fuel) :
    natDigitsRev fuel n = Nat.digits 10 n := by
  induction fuel generalizing n with
  | zero =>
    interval_cases n
    simp [natDigitsRev]
  | succ f ih =>
    rcases n with _ | m
    · simp [natDigitsRev]
    · rw [natDigitsRev, Nat.digits_def' (by norm_num : (1:Nat) < 10) (Nat.succ_pos m)]
      rw [ih ((m + 1) / 10) ?_]
      have := Nat.div_lt_self (Nat.succ_pos m) (by norm_num : (1:Nat) < 10)
      omega

end Acs
namespace Acs

theorem natRepr_digits (n : Nat) : ∀ ch ∈ (natRepr n).data, ch.isDigit = true := by
  intro ch hch
  unfold natRepr at hch
  rw [show (String.mk (((natDigitsRev n n).map digitCh).reverse)).data =
      ((natDigitsRev n n).map digitCh).reverse from rfl] at hch
  rw [List.mem_reverse] at hch
  rcases List.mem_map.mp hch with ⟨d, hd, rfl⟩
  rw [natDigitsRev_eq_digits n n le_rfl] at hd
  exact (digitCh_lt10 d (Nat.digits_lt_base (by norm_num) hd)).2.1

theorem natRepr_ne_nil (n : Nat) (hn : 0 < n) : (natRepr n).data ≠ [] := by
  unfold natRepr
  rw [show (String.mk (((natDigitsRev n n).map digitCh).reverse)).data =
      ((natDigitsRev n n).map digitCh).reverse from rfl]
  rw [natDigitsRev_eq_digits n n le_rfl]
  simp only [ne_eq, List.reverse_eq_nil_iff, List.map_eq_nil]
  exact Nat.digits_ne_nil_iff_ne_zero.mpr (by omega)

theorem foldl_digits (l : List Nat) (a : Nat) (hl : ∀ d ∈ l, d < 10) :
    ((l.map digitCh).reverse).foldl (fun acc c => 10 * acc + (c.toNat - 48)) a =
      a * 10 ^ l.length + Nat.ofDigits 10 l := by
  induction l generalizing a with
  | nil => simp
  | cons d t ih =>
    have hd : d < 10 := hl d (List.mem_cons_self d t)
    have ht : ∀ x ∈ t, x < 10 := fun x hx => hl x (List.mem_cons_of_mem d hx)
    simp only [List.map_cons, List.reverse_cons, List.foldl_append, List.foldl_cons,
      List.foldl_nil]
    rw [ih _ ht, (digitCh_lt10 d hd).1, Nat.ofDigits_cons, List.length_cons, pow_succ]
    ring

theorem parseIntPy_natRepr (n : Nat) (hn : 0 < n) : parseIntPy (natRepr n) = some n := by
  unfold parseIntPy
  rw [if_pos ⟨natRepr_ne_nil n hn, List.all_eq_true.mpr (fun c hc => natRepr_digits n c hc)⟩]
  unfold natRepr
  rw [show (String.mk (((natDigitsRev n n).map digitCh).reverse)).data =
      ((natDigitsRev n n).map digitCh).reverse from rfl]
  rw [natDigitsRev_eq_digits n n le_rfl]
  rw [foldl_digits _ 0 (fun d hd => Nat.digits_lt_base (by norm_num) hd)]
  rw [Nat.ofDigits_digits]
  ring

end Acs
namespace Acs

theorem mem_of_getLast?_eq {α : Type} {l : List α} {a : α} (h : l.getLast? = some a) :
    a ∈ l := by
  rw [← List.head?_reverse] at h
  have := List.mem_of_mem_head? h
  simpa using this

theorem dropWhile_cons_neg {p : Char → Bool} {a : Char} {l : List Char} (h : p a = false) :
    (a :: l).dropWhile p = a :: l := by
  rw [List.dropWhile_cons, h]
  simp

theorem pyStripL_eq_self (c : Char) (l : List Char)
    (hhead : ∀ d, l.head? = some d → d ≠ c)
    (hlast : ∀ d, l.getLast? = some d → d ≠ c) :
    pyStripL c l = l := by
  unfold pyStripL
  have h1 : l.dropWhile (· = c) = l := by
    rcases l with _ | ⟨a, as⟩
    · rfl
    · exact dropWhile_cons_neg (by simpa using hhead a rfl)
  rw [h1]
  have h2 : l.reverse.dropWhile (· = c) = l.reverse := by
    rcases hr : l.reverse with _ | ⟨a, as⟩
    · rfl
    · have ha : a ≠ c := hlast a (by rw [← List.head?_reverse, hr]; rfl)
      exact dropWhile_cons_neg (by simpa using ha)
  rw [h2, List.reverse_reverse]

theorem joinSep_head? (c : Char) (p : List Char) (ps : List (List Char)) (hp : p ≠ []) :
    (joinSep c (p :: ps)).head? = p.head? := by
  rcases ps with _ | ⟨q, qs⟩
  · rfl
  · rw [joinSep_cons₂]
    exact List.head?_append_of_ne_nil _ hp

theorem joinSep_ne_nil (c : Char) (ps : List (List Char)) (hne : ps ≠ [])
    (h : ∀ p ∈ ps, p ≠ []) : joinSep c ps ≠ [] := by
  intro hj
  rcases joinSep_eq_nil c ps hj with h0 | h0
  · exact hne h0
  · rw [h0] at h
    exact h [] (List.mem_singleton.mpr rfl) rfl

theorem joinSep_getLast?_ne (c : Char) (ps : List (List Char))
    (h : ∀ p ∈ ps, p ≠ [] ∧ c ∉ p) :
    ∀ d, (joinSep c ps).getLast? = some d → d ≠ c := by
  induction ps with
  | nil =>
    intro d hd
    simp [joinSep] at hd
  | cons p rest ih =>
    rcases rest with _ | ⟨q, qs⟩
    · intro d hd
      have hp := h p (List.mem_cons_self _ _)
      have hmem : d ∈ p := mem_of_getLast?_eq hd
      exact fun hdc => hp.2 (hdc ▸ hmem)
    · intro d hd
      have hrest : ∀ x ∈ q :: qs, x ≠ [] ∧ c ∉ x :=
        fun x hx => h x (List.mem_cons_of_mem p hx)
      have hJ : joinSep c (q :: qs) ≠ [] :=
        joinSep_ne_nil c _ (List.cons_ne_nil q qs) (fun x hx => (hrest x hx).1)
      rw [joinSep_cons₂, List.getLast?_append_of_ne_nil _ (List.cons_ne_nil c _)] at hd
      rw [show c :: joinSep c (q :: qs) = [c] ++ joinSep c (q :: qs) from rfl,
        List.getLast?_append_of_ne_nil _ hJ] at hd
      exact ih hrest d hd

end Acs
namespace Acs

theorem takeWhile_append_stop {p : Char → Bool} (xs ys : List Char) (y : Char)
    (hxs : ∀ a ∈ xs, p a = true) (hy : p y = false) :
    (xs ++ y :: ys).takeWhile p = xs := by
  induction xs with
  | nil =>
    simp [List.takeWhile_cons, hy]
  | cons a as ih =>
    simp [List.takeWhile_cons, hxs a (List.mem_cons_self a as),
      ih (fun x hx => hxs x (List.mem_cons_of_mem a hx))]

theorem dropWhile_append_stop {p : Char → Bool} (xs ys : List Char) (y : Char)
    (hxs : ∀ a ∈ xs, p a = true) (hy : p y = false) :
    (xs ++ y :: ys).dropWhile p = y :: ys := by
  induction xs with
  | nil =>
    simp [List.dropWhile_cons, hy]
  | cons a as ih =>
    simp [List.dropWhile_cons, hxs a (List.mem_cons_self a as),
      ih (fun x hx => hxs x (List.mem_cons_of_mem a hx))]

theorem splitColon1_append (k v : String) (hk : ':' ∉ k.data) :
    splitColon1 (k ++ ":" ++ v) = (k, v) := by
  unfold splitColon1
  have hd : (k ++ ":" ++ v).data = k.data ++ ':' :: v.data := by
    simp [String.data_append]
  rw [hd]
  have hall : ∀ a ∈ k.data, (decide (a ≠ ':')) = true := by
    intro a ha
    simp only [decide_eq_true_eq]
    exact fun hac => hk (hac ▸ ha)
  have h1 : (k.data ++ ':' :: v.data).takeWhile (fun c => decide (c ≠ ':')) = k.data :=
    takeWhile_append_stop _ _ _ hall (by simp)
  have h2 : (k.data ++ ':' :: v.data).dropWhile (fun c => decide (c ≠ ':')) = ':' :: v.data :=
    dropWhile_append_stop _ _ _ hall (by simp)
  rw [h1, h2]
  rfl

theorem splitc_joinc (c : Char) (vs : List String) (hne : vs ≠ [])
    (hclean : ∀ v ∈ vs, c ∉ v.data) :
    splitc c (joinc c vs) = vs := by
  unfold splitc joinc
  rw [show (String.mk (joinSep c (vs.map String.data))).data =
      joinSep c (vs.map String.data) from rfl]
  rw [splitcL_joinSep c _ (by simpa using hne) ?_]
  · rw [List.map_map]
    have : vs.map (String.mk ∘ String.data) = vs.map id := by
      apply List.map_congr_left
      intro v _
      rfl
    rw [this, List.map_id]
  · intro p hp
    rcases List.mem_map.mp hp with ⟨v, hv, rfl⟩
    exact hclean v hv

theorem qsGet_vals_ne (query : List (String × String)) (k : String) :
    ∀ v ∈ qsGet query k, v ≠ "" := by
  intro v hv
  unfold qsGet at hv
  rcases List.mem_map.mp hv with ⟨p, hp, rfl⟩
  have h1 := (List.mem_filter.mp (List.mem_filter.mp hp).1).2
  simpa using h1

theorem qsHas_headD_ne (query : List (String × String)) (k : String)
    (h : qsHas query k = true) : (qsGet query k).headD "" ≠ "" := by
  unfold qsHas at h
  rcases hq : qsGet query k with _ | ⟨v, vs⟩
  · rw [hq] at h
    simp at h
  · have := qsGet_vals_ne query k v (hq ▸ List.mem_cons_self v vs)
    simpa using this

theorem pyStripL_cons_sep (c : Char) (l : List Char) :
    pyStripL c (c :: l) = pyStripL c l := by
  unfold pyStripL
  rw [List.dropWhile_cons]
  simp

end Acs
namespace Acs

theorem fromUrl_ok (path : String) (query : List (String × String)) (e : APIEndpoint)
    (h : fromUrl path query = .ok e) :
    (pathPartsOf path).headD "" = "data" ∧ 3 ≤ (pathPartsOf path).length ∧
    parseIntPy ((pathPartsOf path).getD 1 "") = some e.year ∧ 2004 < e.year ∧
    e.dataset = pyStrip '/' (joinc '/' ((pathPartsOf path).drop 2)) ∧
    e.vars = splitc ',' ((qsGet query "get").headD "") ∧ e.vars ≠ [""] ∧
    ∃ geoKey, ["for", "in", "ucgid"].find? (fun k => qsHas query k) = some geoKey ∧
      e.geography = geoKey ++ ":" ++ (qsGet query geoKey).headD "" := by
  unfold fromUrl at h
  by_cases hc1 : (pathPartsOf path).headD "" = "data" ∧ 3 ≤ (pathPartsOf path).length
  · rw [if_pos hc1] at h
    rcases hy : parseIntPy ((pathPartsOf path).getD 1 "") with _ | year
    · rw [hy] at h
      simp at h
    · rw [hy] at h
      simp only [] at h
      by_cases hv : splitc ',' ((qsGet query "get").headD "") ≠ [""]
      · rw [if_pos hv] at h
        rcases hg : ["for", "in", "ucgid"].find? (fun k => qsHas query k) with _ | geoKey
        · rw [hg] at h
          simp at h
        · rw [hg] at h
          simp only [] at h
          by_cases hyy : 2004 < year
          · rw [if_pos hyy] at h
            injection h with h'
            subst h'
            refine ⟨hc1.1, hc1.2, ?_, hyy, rfl, rfl, hv, geoKey, ?_, rfl⟩
            · rfl
            · rfl
          · rw [if_neg hyy] at h
            simp at h
      · rw [if_neg hv] at h
        simp at h
  · rw [if_neg hc1] at h
    simp at h

end Acs
namespace Acs

theorem data_mk (l : List Char) : (String.mk l).data = l := rfl

theorem data_ne_nil_of_ne (p : String) (hp : p ≠ "") : p.data ≠ [] := by
  intro hd
  apply hp
  apply String.ext
  rw [hd]

theorem joinSep_slash_head (ps : List String) (hps : ps ≠ [])
    (hmem' : ∀ q ∈ ps.map String.data, q ≠ [] ∧ '/' ∉ q) :
    ∀ d, (joinSep '/' (ps.map String.data)).head? = some d → d ≠ '/' := by
  intro d hd
  rcases ps with _ | ⟨p₀, rest⟩
  · exact absurd rfl hps
  · rw [List.map_cons, joinSep_head? '/' _ _ (hmem' p₀.data (by simp)).1] at hd
    have hdm : d ∈ p₀.data := List.mem_of_mem_head? hd
    exact fun hdc => (hmem' p₀.data (by simp)).2 (hdc ▸ hdm)

theorem joinc_strip_self (ps : List String) (hps : ps ≠ [])
    (hmem : ∀ p ∈ ps, p ≠ "" ∧ '/' ∉ p.data) :
    pyStrip '/' (joinc '/' ps) = joinc '/' ps := by
  have hmem' : ∀ q ∈ ps.map String.data, q ≠ [] ∧ '/' ∉ q := by
    intro q hq
    rcases List.mem_map.mp hq with ⟨p, hp, rfl⟩
    exact ⟨data_ne_nil_of_ne p (hmem p hp).1, (hmem p hp).2⟩
  unfold pyStrip joinc
  rw [data_mk]
  exact congrArg String.mk (pyStripL_eq_self '/' _ (joinSep_slash_head ps hps hmem')
    (joinSep_getLast?_ne '/' _ hmem'))

theorem pathPartsOf_reconstructed (year : Nat) (hy : 0 < year) (ps : List String)
    (hps : ps ≠ []) (hmem : ∀ p ∈ ps, p ≠ "" ∧ '/' ∉ p.data) :
    pathPartsOf ("/data/" ++ natRepr year ++ "/" ++ pyStrip '/' (joinc '/' ps)) =
      "data" :: natRepr year :: ps := by
  have hmem' : ∀ q ∈ ps.map String.data, q ≠ [] ∧ '/' ∉ q := by
    intro q hq
    rcases List.mem_map.mp hq with ⟨p, hp, rfl⟩
    exact ⟨data_ne_nil_of_ne p (hmem p hp).1, (hmem p hp).2⟩
  have hX : ∀ ch ∈ (natRepr year).data, ch ≠ '/' := by
    intro ch hch hc
    have hdig := natRepr_digits year ch hch
    rw [hc] at hdig
    exact absurd hdig (by decide)
  have hjd : joinSep '/' (ps.map String.data) ≠ [] :=
    joinSep_ne_nil '/' _ (by simpa using hps) (fun q hq => (hmem' q hq).1)
  rw [joinc_strip_self ps hps hmem]
  have hdata : ("/data/" ++ natRepr year ++ "/" ++ joinc '/' ps).data =
      '/' :: (['d', 'a', 't', 'a'] ++ '/' ::
        ((natRepr year).data ++ '/' :: joinSep '/' (ps.map String.data))) := by
    simp [String.data_append, joinc, data_mk]
  -- the stripped character list
  have hstrip : pyStripL '/' (("/data/" ++ natRepr year ++ "/" ++ joinc '/' ps).data) =
      ['d', 'a', 't', 'a'] ++ '/' ::
        ((natRepr year).data ++ '/' :: joinSep '/' (ps.map String.data)) := by
    rw [hdata, pyStripL_cons_sep]
    apply pyStripL_eq_self
    · intro d hd
      simp only [List.cons_append, List.head?_cons] at hd
      cases hd
      decide
    · intro d hd
      have harr : ['d', 'a', 't', 'a'] ++ '/' ::
          ((natRepr year).data ++ '/' :: joinSep '/' (ps.map String.data)) =
          (['d', 'a', 't', 'a'] ++ '/' :: (natRepr year).data ++ ['/']) ++
            joinSep '/' (ps.map String.data) := by
        simp
      rw [harr, List.getLast?_append_of_ne_nil _ hjd] at hd
      exact joinSep_getLast?_ne '/' _ hmem' d hd
  have hsplit : splitcL '/' (['d', 'a', 't', 'a'] ++ '/' ::
      ((natRepr year).data ++ '/' :: joinSep '/' (ps.map String.data))) =
      ['d', 'a', 't', 'a'] :: (natRepr year).data :: ps.map String.data := by
    rw [splitcL_append_sep _ _ _ (by decide)]
    rw [splitcL_append_sep _ _ _ (fun hc => absurd rfl (hX '/' hc))]
    rw [splitcL_joinSep '/' _ (by simpa using hps) (fun q hq => (hmem' q hq).2)]
  have hmk : (ps.map String.data).map String.mk = ps := by
    rw [List.map_map]
    have hcomp : ps.map (String.mk ∘ String.data) = ps.map id :=
      List.map_congr_left (fun v _ => rfl)
    rw [hcomp, List.map_id]
  have hfilter : List.filter (fun p => decide (p ≠ ""))
      ("data" :: natRepr year :: ps) = "data" :: natRepr year :: ps := by
    apply List.filter_eq_self.mpr
    intro a ha
    rcases List.mem_cons.mp ha with rfl | ha
    · decide
    rcases List.mem_cons.mp ha with rfl | ha
    · simp only [decide_eq_true_eq]
      intro hc
      exact natRepr_ne_nil year hy (by rw [hc])
    · simp only [decide_eq_true_eq]
      exact (hmem a ha).1
  unfold pathPartsOf pyStrip splitc
  rw [data_mk, hstrip, hsplit]
  rw [List.map_cons, List.map_cons, hmk]
  exact hfilter

end Acs
namespace Acs

theorem find?_eq_some_of_iff {α : Type} (l : List α) (p : α → Bool) (a : α)
    (ha : a ∈ l) (hp : ∀ x ∈ l, (p x = true ↔ x = a)) : l.find? p = some a := by
  induction l with
  | nil => cases ha
  | cons x xs ih =>
    by_cases hx : p x = true
    · have : x = a := (hp x (List.mem_cons_self x xs)).mp hx
      rw [List.find?_cons_of_pos _ hx, this]
    · have hxa : x ≠ a := fun hc => hx ((hp x (List.mem_cons_self x xs)).mpr hc)
      rw [List.find?_cons_of_neg _ hx]
      apply ih
      · rcases List.mem_cons.mp ha with hc | hc
        · exact absurd hc.symm hxa
        · exact hc
      · exact fun x hx => hp x (List.mem_cons_of_mem _ hx)

/-- C7: from_url round-trip. For every path and query that from_url parses
successfully into an endpoint, rebuilding the request URL from that endpoint
(url_no_key without the api key) and re-parsing it with from_url succeeds and
yields an endpoint with the same year, dataset, variables and geography. -/
theorem fromUrl_roundtrip (path : String) (query : List (String × String))
    (e : APIEndpoint) (h : fromUrl path query = .ok e) :
    ∃ e', fromUrl (urlNoKeyPath e) (urlNoKeyQuery e) = .ok e' ∧
      e'.year = e.year ∧ e'.dataset = e.dataset ∧ e'.vars = e.vars ∧
      e'.geography = e.geography := by
  obtain ⟨hd, hlen, hy, hyy, hds, hvars, hvne, geoKey, hfind, hgeo⟩ :=
    fromUrl_ok path query e h
  -- facts about the dataset segments
  have hps_ne : (pathPartsOf path).drop 2 ≠ [] := by
    intro hnil
    have hld := List.length_drop 2 (pathPartsOf path)
    rw [hnil] at hld
    simp only [List.length_nil] at hld
    omega
  have hps_mem : ∀ p ∈ (pathPartsOf path).drop 2, p ≠ "" ∧ '/' ∉ p.data := by
    intro p hp
    have hp' : p ∈ pathPartsOf path := List.drop_subset 2 _ hp
    unfold pathPartsOf splitc at hp'
    have h1 := List.mem_filter.mp hp'
    refine ⟨by simpa using h1.2, ?_⟩
    rcases List.mem_map.mp h1.1 with ⟨q, hq, rfl⟩
    rw [data_mk]
    exact splitcL_pieces_clean '/' _ q hq
  -- facts about the variables
  have hvne' : e.vars ≠ [] := by
    rw [hvars]
    unfold splitc
    intro hc
    exact splitcL_ne_nil ',' _ (List.map_eq_nil_iff.mp hc)
  have hvclean : ∀ v ∈ e.vars, ',' ∉ v.data := by
    rw [hvars]
    intro v hv
    unfold splitc at hv
    rcases List.mem_map.mp hv with ⟨q, hq, rfl⟩
    rw [data_mk]
    exact splitcL_pieces_clean ',' _ q hq
  have hjoin_ne : joinc ',' e.vars ≠ "" := by
    intro hc
    have hc' : joinSep ',' (e.vars.map String.data) = [] := by
      have := congrArg String.data hc
      rw [show (joinc ',' e.vars).data = joinSep ',' (e.vars.map String.data) from rfl] at this
      simpa using this
    rcases joinSep_eq_nil ',' _ hc' with h0 | h0
    · exact hvne' (List.map_eq_nil_iff.mp h0)
    · apply hvne
      have hl1 : e.vars.length = 1 := by
        have := congrArg List.length h0
        simpa using this
      rcases List.length_eq_one.mp hl1 with ⟨v, hv1⟩
      rw [hv1, List.map_cons, List.map_nil] at h0
      have hv0 : v.data = [] := by
        injection h0
      have hveq : v = "" := by
        apply String.ext
        rw [hv0]
      rw [hv1, hveq]
  -- facts about the geography key
  have hgk_mem : geoKey ∈ ["for", "in", "ucgid"] := List.mem_of_find?_eq_some hfind
  have hgk_has : qsHas query geoKey = true := by simpa using List.find?_some hfind
  have hgv_ne : (qsGet query geoKey).headD "" ≠ "" := qsHas_headD_ne query geoKey hgk_has
  have hgk_colon : ':' ∉ geoKey.data := by
    fin_cases hgk_mem <;> decide
  have hgk_get : geoKey ≠ "get" := by
    fin_cases hgk_mem <;> decide
  set J := joinc ',' e.vars with hJ
  set gv := (qsGet query geoKey).headD "" with hgvdef
  have hsplitgeo : splitColon1 e.geography = (geoKey, gv) := by
    rw [hgeo]
    exact splitColon1_append geoKey _ hgk_colon
  have hquery' : urlNoKeyQuery e = [("get", J), (geoKey, gv)] := by
    unfold urlNoKeyQuery
    rw [hsplitgeo, hJ]
  -- reconstructed path
  have hyear_pos : 0 < e.year := by omega
  have hpath' : pathPartsOf (urlNoKeyPath e) =
      "data" :: natRepr e.year :: (pathPartsOf path).drop 2 := by
    unfold urlNoKeyPath
    rw [hds]
    exact pathPartsOf_reconstructed e.year hyear_pos _ hps_ne hps_mem
  -- query computations on the reconstructed query
  have hq_get : qsGet (urlNoKeyQuery e) "get" = [J] := by
    rw [hquery']
    unfold qsGet
    simp [hjoin_ne, hgv_ne, hgk_get]
  have hq_geo : qsGet (urlNoKeyQuery e) geoKey = [gv] := by
    rw [hquery']
    unfold qsGet
    simp [hjoin_ne, hgv_ne, Ne.symm hgk_get]
  have hfind' : ["for", "in", "ucgid"].find? (fun k => qsHas (urlNoKeyQuery e) k) =
      some geoKey := by
    apply find?_eq_some_of_iff _ _ _ hgk_mem
    intro x hx
    have hx_get : x ≠ "get" := by
      fin_cases hx <;> decide
    constructor
    · intro hpx
      unfold qsHas at hpx
      rw [hquery'] at hpx
      unfold qsGet at hpx
      simp [hjoin_ne, hgv_ne, Ne.symm hx_get] at hpx
      exact hpx.symm
    · intro hxg
      subst hxg
      unfold qsHas
      rw [hq_geo]
      simp [hgv_ne]
  -- the variables round-trip
  have hvars' : splitc ',' ((qsGet (urlNoKeyQuery e) "get").headD "") = e.vars := by
    rw [hq_get]
    show splitc ',' J = e.vars
    rw [hJ]
    exact splitc_joinc ',' e.vars hvne' hvclean
  -- now evaluate fromUrl on the reconstruction
  unfold fromUrl
  rw [hpath', hvars']
  rw [if_pos ⟨rfl, by simp; omega⟩]
  simp only [List.getD_cons_succ, List.getD_cons_zero]
  rw [parseIntPy_natRepr e.year hyear_pos]
  simp only []
  rw [if_pos hvne, hfind']
  simp only []
  rw [if_pos hyy]
  refine ⟨_, rfl, rfl, hds.symm, rfl, ?_⟩
  show geoKey ++ ":" ++ (qsGet (urlNoKeyQuery e) geoKey).headD "" = e.geography
  rw [hq_geo, hgeo]
  rfl

theorem fromUrl_roundtrip_witness :
    ∃ e', fromUrl
        (urlNoKeyPath { year := 2023, dataset := "acs/acs5",
                        vars := ["NAME", "B05006_001E"],
                        geography := "ucgid:0400000US09", api_key := none })
        (urlNoKeyQuery { year := 2023, dataset := "acs/acs5",
                         vars := ["NAME", "B05006_001E"],
                         geography := "ucgid:0400000US09", api_key := none }) = .ok e' ∧
      e'.year = 2023 ∧ e'.dataset = "acs/acs5" ∧
      e'.vars = ["NAME", "B05006_001E"] ∧ e'.geography = "ucgid:0400000US09" :=
  fromUrl_roundtrip "/data/2023/acs/acs5"
    [("get", "NAME,B05006_001E"), ("ucgid", "0400000US09")]
    { year := 2023, dataset := "acs/acs5", vars := ["NAME", "B05006_001E"],
      geography := "ucgid:0400000US09", api_key := none } (by decide)

end Acs

namespace Acs

theorem char_toNat_inj {a b : Char} (h : a.toNat = b.toNat) : a = b :=
  Char.ext (UInt32.ext h)

theorem charListLe_total (a b : List Char) : charListLe a b ∨ charListLe b a := by
  induction a generalizing b with
  | nil => left; rfl
  | cons x xs ih =>
    cases b with
    | nil => right; rfl
    | cons y ys =>
      simp only [charListLe]
      rcases eq_or_ne x.toNat y.toNat with h | h
      · rw [if_pos h, if_pos h.symm]
        exact ih ys
      · rw [if_neg h, if_neg (Ne.symm h)]
        simp only [decide_eq_true_eq]
        omega

theorem charListLe_trans {a b c : List Char}
    (hab : charListLe a b) (hbc : charListLe b c) : charListLe a c := by
  induction a generalizing b c with
  | nil => rfl
  | cons x xs ih =>
    cases b with
    | nil => exact absurd hab (by simp [charListLe])
    | cons y ys =>
      cases c with
      | nil => exact absurd hbc (by simp [charListLe])
      | cons z zs =>
        simp only [charListLe] at hab hbc ⊢
        rcases eq_or_ne x.toNat y.toNat with hxy | hxy <;>
          rcases eq_or_ne y.toNat z.toNat with hyz | hyz
        · rw [if_pos hxy] at hab
          rw [if_pos hyz] at hbc
          rw [if_pos (hxy.trans hyz)]
          exact ih hab hbc
        · rw [if_neg hyz] at hbc
          rw [if_neg (hxy ▸ hyz)]
          simp only [decide_eq_true_eq] at hbc ⊢
          omega
        · rw [if_neg hxy] at hab
          rw [if_neg (hyz ▸ hxy)]
          simp only [decide_eq_true_eq] at hab ⊢
          omega
        · rw [if_neg hxy] at hab
          rw [if_neg hyz] at hbc
          simp only [decide_eq_true_eq] at hab hbc
          rcases eq_or_ne x.toNat z.toNat with hxz | hxz
          · omega
          · rw [if_neg hxz]
            simp only [decide_eq_true_eq]
            omega

theorem charListLe_antisymm {a b : List Char}
    (hab : charListLe a b) (hba : charListLe b a) : a = b := by
  induction a generalizing b with
  | nil =>
    cases b with
    | nil => rfl
    | cons y ys => exact absurd hba (by simp [charListLe])
  | cons x xs ih =>
    cases b with
    | nil => exact absurd hab (by simp [charListLe])
    | cons y ys =>
      simp only [charListLe] at hab hba
      rcases eq_or_ne x.toNat y.toNat with hxy | hxy
      · rw [if_pos hxy] at hab
        rw [if_pos hxy.symm] at hba
        rw [char_toNat_inj hxy, ih hab hba]
      · rw [if_neg hxy] at hab
        rw [if_neg (Ne.symm hxy)] at hba
        simp only [decide_eq_true_eq] at hab hba
        omega

instance : IsTotal String (fun a b => strLe a b) :=
  ⟨fun a b => by simpa [strLe] using charListLe_total a.data b.data⟩

instance : IsTrans String (fun a b => strLe a b) :=
  ⟨fun _ _ _ hab hbc => charListLe_trans hab hbc⟩

instance : IsAntisymm String (fun a b => strLe a b) :=
  ⟨fun a b hab hba => by
    cases a; cases b
    exact congrArg String.mk (charListLe_antisymm hab hba)⟩

theorem variableSet_sorted (rows : List StratRow) (g : Nat) :
    List.Sorted (fun a b => strLe a b) (variableSet rows g) := by
  unfold variableSet
  exact List.Pairwise.sublist (List.dedup_sublist _)
    (List.sorted_insertionSort (fun a b => strLe a b) _)

theorem variableSet_nodup (rows : List StratRow) (g : Nat) :
    (variableSet rows g).Nodup := List.nodup_dedup _

theorem variableSet_mem (rows : List StratRow) (g : Nat) (v : String) :
    v ∈ variableSet rows g ↔ ∃ r ∈ rows, r.ebsId = g ∧ r.varName = v := by
  unfold variableSet
  rw [List.mem_dedup, (List.perm_insertionSort _ _).mem_iff]
  simp only [List.mem_map, List.mem_filter, beq_iff_eq]
  constructor
  · rintro ⟨r, ⟨hr, hg⟩, hv⟩
    exact ⟨r, hr, hg, hv⟩
  · rintro ⟨r, hr, hg, hv⟩
    exact ⟨r, ⟨hr, hg⟩, hv⟩

theorem variableSet_eq_of_mem_iff (rows : List StratRow) (g1 g2 : Nat)
    (h : ∀ v, v ∈ variableSet rows g1 ↔ v ∈ variableSet rows g2) :
    variableSet rows g1 = variableSet rows g2 :=
  List.eq_of_perm_of_sorted
    ((List.perm_ext_iff_of_nodup (variableSet_nodup rows g1)
      (variableSet_nodup rows g2)).mpr h)
    (variableSet_sorted rows g1) (variableSet_sorted rows g2)

theorem stratPairs_mem (rows : List StratRow) (g : Nat) (v : String)
    (val : Option String) :
    (v, val) ∈ stratPairs rows g ↔
      ∃ r ∈ rows, r.ebsId = g ∧ r.varName = v ∧ r.value = val := by
  unfold stratPairs
  simp only [List.mem_map, List.mem_filter, beq_iff_eq, Prod.mk.injEq]
  constructor
  · rintro ⟨r, ⟨hr, hg⟩, hv, hval⟩
    exact ⟨r, hr, hg, hv, hval⟩
  · rintro ⟨r, hr, hg, hv, hval⟩
    exact ⟨r, ⟨hr, hg⟩, hv, hval⟩

theorem cell_of_row (rows : List StratRow) (hf : Functional rows)
    {r : StratRow} {g : Nat} (hr : r ∈ rows) (hg : r.ebsId = g) :
    cell rows g r.varName = r.value := by
  unfold cell
  have hsome : (rows.find? (fun x => x.ebsId == g && x.varName == r.varName)).isSome := by
    rw [List.find?_isSome]
    exact ⟨r, hr, by simp [hg]⟩
  obtain ⟨r0, hr0⟩ := Option.isSome_iff_exists.mp hsome
  have hmem := List.mem_of_find?_eq_some hr0
  have hp := List.find?_some hr0
  simp only [Bool.and_eq_true, beq_iff_eq] at hp
  rw [hr0]
  simp only [Option.some_bind]
  exact hf r0 hmem r hr (hp.1.trans hg.symm) hp.2

theorem cell_none (rows : List StratRow) {g : Nat} {v : String}
    (h : ∀ r ∈ rows, ¬(r.ebsId = g ∧ r.varName = v)) :
    cell rows g v = none := by
  unfold cell
  rw [List.find?_eq_none.mpr ?_]
  · rfl
  · intro r hr
    simp only [Bool.and_eq_true, beq_iff_eq]
    exact fun hc => h r hr hc

theorem allVariables_mem (rows : List StratRow) (v : String) :
    v ∈ allVariables rows ↔ ∃ r ∈ rows, r.varName = v := by
  unfold allVariables
  rw [List.mem_dedup]
  simp [List.mem_map]

theorem rowContent_eq_iff (rows : List StratRow) (hf : Functional rows)
    {g1 g2 : Nat} (h1 : g1 ∈ groupIds rows) (h2 : g2 ∈ groupIds rows) :
    rowContent rows g1 = rowContent rows g2 ↔
      ∀ p, p ∈ stratPairs rows g1 ↔ p ∈ stratPairs rows g2 := by
  have key : ∀ a b : Nat, variableSet rows a = variableSet rows b →
      (∀ v ∈ allVariables rows, cell rows a v = cell rows b v) →
      ∀ p ∈ stratPairs rows a, p ∈ stratPairs rows b := by
    rintro a b hvs hcell ⟨v, val⟩ hp
    obtain ⟨r, hr, hga, hvn, hval⟩ := (stratPairs_mem rows a v val).mp hp
    have hvall : v ∈ allVariables rows := (allVariables_mem rows v).mpr ⟨r, hr, hvn⟩
    have hca : cell rows a v = val := by
      rw [← hvn, cell_of_row rows hf hr hga, hval]
    have hcb : cell rows b v = val := by rw [← hcell v hvall, hca]
    have hvinb : v ∈ variableSet rows b := by
      rw [← hvs]
      exact (variableSet_mem rows a v).mpr ⟨r, hr, hga, hvn⟩
    obtain ⟨r', hr', hgb, hvn'⟩ := (variableSet_mem rows b v).mp hvinb
    have hcb' : cell rows b v = r'.value := by
      rw [← hvn', cell_of_row rows hf hr' hgb]
    exact (stratPairs_mem rows b v val).mpr ⟨r', hr', hgb, hvn', by rw [← hcb', hcb]⟩
  constructor
  · intro h
    simp only [rowContent, Prod.mk.injEq] at h
    obtain ⟨hid, hcells⟩ := h
    have hvs : variableSet rows g1 = variableSet rows g2 :=
      (denseRank_inj (List.mem_map_of_mem (variableSet rows) h1)
        (List.mem_map_of_mem (variableSet rows) h2)).mp hid
    have hcell : ∀ v ∈ allVariables rows, cell rows g1 v = cell rows g2 v :=
      fun v hv => List.map_eq_map_iff.mp hcells v hv
    exact fun p => ⟨key g1 g2 hvs hcell p, key g2 g1 hvs.symm
      (fun v hv => (hcell v hv).symm) p⟩
  · intro hp
    have hvsmem : ∀ v, v ∈ variableSet rows g1 ↔ v ∈ variableSet rows g2 := by
      intro v
      rw [variableSet_mem, variableSet_mem]
      constructor
      · rintro ⟨r, hr, hg, hv⟩
        have hmem := (hp (v, r.value)).mp
          ((stratPairs_mem rows g1 v r.value).mpr ⟨r, hr, hg, hv, rfl⟩)
        obtain ⟨r', hr', hg', hv', _⟩ := (stratPairs_mem rows g2 v r.value).mp hmem
        exact ⟨r', hr', hg', hv'⟩
      · rintro ⟨r, hr, hg, hv⟩
        have hmem := (hp (v, r.value)).mpr
          ((stratPairs_mem rows g2 v r.value).mpr ⟨r, hr, hg, hv, rfl⟩)
        obtain ⟨r', hr', hg', hv', _⟩ := (stratPairs_mem rows g1 v r.value).mp hmem
        exact ⟨r', hr', hg', hv'⟩
    have hvs := variableSet_eq_of_mem_iff rows g1 g2 hvsmem
    have hcells : ∀ v ∈ allVariables rows, cell rows g1 v = cell rows g2 v := by
      intro v _
      by_cases hex : ∃ r ∈ rows, r.ebsId = g1 ∧ r.varName = v
      · obtain ⟨r, hr, hg, hv⟩ := hex
        have hc1 : cell rows g1 v = r.value := by
          rw [← hv, cell_of_row rows hf hr hg]
        have hpair := (hp (v, r.value)).mp
          ((stratPairs_mem rows g1 v r.value).mpr ⟨r, hr, hg, hv, rfl⟩)
        obtain ⟨r', hr', hg', hv', hval'⟩ := (stratPairs_mem rows g2 v r.value).mp hpair
        have hc2 : cell rows g2 v = r'.value := by
          rw [← hv', cell_of_row rows hf hr' hg']
        rw [hc1, hc2, hval']
      · have hex2 : ¬∃ r ∈ rows, r.ebsId = g2 ∧ r.varName = v := by
          rintro ⟨r', hr', hg', hv'⟩
          have hmem := (hp (v, r'.value)).mpr
            ((stratPairs_mem rows g2 v r'.value).mpr ⟨r', hr', hg', hv', rfl⟩)
          obtain ⟨r, hr, hg, hv, _⟩ := (stratPairs_mem rows g1 v r'.value).mp hmem
          exact hex ⟨r, hr, hg, hv⟩
        rw [cell_none rows (fun r hr hc => hex ⟨r, hr, hc⟩),
          cell_none rows (fun r hr hc => hex2 ⟨r, hr, hc⟩)]
    simp only [rowContent, Prod.mk.injEq]
    refine ⟨?_, List.map_eq_map_iff.mpr hcells⟩
    unfold variableSetId
    rw [hvs]

/-- C1: stratifier dimension collapsing.  Over a stratifier frame with one row
per (group, variable) pair, for any two groups present in the frame: if they
carry the same set of (variable, value) pairs they receive the same
`DimStratifierID`, and if their pair sets differ in at least one element they
receive different `DimStratifierID`s. -/
theorem dimWalk_collapse (rows : List StratRow) (hf : Functional rows)
    (g1 g2 : Nat) (h1 : g1 ∈ groupIds rows) (h2 : g2 ∈ groupIds rows) :
    ((∀ p, p ∈ stratPairs rows g1 ↔ p ∈ stratPairs rows g2) →
      dimStratifierId rows g1 = dimStratifierId rows g2) ∧
    ((∃ p, ¬(p ∈ stratPairs rows g1 ↔ p ∈ stratPairs rows g2)) →
      dimStratifierId rows g1 ≠ dimStratifierId rows g2) := by
  constructor
  · intro hp
    unfold dimStratifierId
    rw [(rowContent_eq_iff rows hf h1 h2).mpr hp]
  · rintro ⟨p, hp⟩ heq
    unfold dimStratifierId at heq
    have hrc : rowContent rows g1 = rowContent rows g2 :=
      (denseRank_inj (List.mem_map_of_mem (rowContent rows) h1)
        (List.mem_map_of_mem (rowContent rows) h2)).mp heq
    exact hp ((rowContent_eq_iff rows hf h1 h2).mp hrc p)

theorem dimWalk_collapse_witness :
    Functional collapseRows ∧ 1 ∈ groupIds collapseRows ∧ 2 ∈ groupIds collapseRows ∧
    ((∀ p, p ∈ stratPairs collapseRows 1 ↔ p ∈ stratPairs collapseRows 2) →
      dimStratifierId collapseRows 1 = dimStratifierId collapseRows 2) ∧
    ((∃ p, ¬(p ∈ stratPairs collapseRows 1 ↔ p ∈ stratPairs collapseRows 2)) →
      dimStratifierId collapseRows 1 ≠ dimStratifierId collapseRows 2) :=
  ⟨by unfold Functional; decide, by decide, by decide,
   (dimWalk_collapse collapseRows (by unfold Functional; decide) 1 2
     (by decide) (by decide)).1,
   (dimWalk_collapse collapseRows (by unfold Functional; decide) 1 2
     (by decide) (by decide)).2⟩

end Acs
